import Mathlib

/-!
Verification of the AList-to-Emby TV folder organizer (renamer.py) against its
natural-language specification.  Python strings are modelled as lists of
characters (`Str`); the helpers below are direct translations of the
corresponding Python functions.
-/

namespace Renamer

/-- Python strings are modelled as lists of unicode characters. -/
abbrev Str := List Char

/-- Characters matched by Python's whitespace class (re `\s` with unicode
semantics, also the default set stripped by `str.strip`): ASCII whitespace,
the C1 controls 0x1c-0x1f and 0x85, and the unicode space separators. -/
def pySpace (c : Char) : Bool :=
  c.toNat == 32 || (9 ≤ c.toNat && c.toNat ≤ 13) ||
  (0x1c ≤ c.toNat && c.toNat ≤ 0x1f) || c.toNat == 0x85 || c.toNat == 0xa0 ||
  c.toNat == 0x1680 || (0x2000 ≤ c.toNat && c.toNat ≤ 0x200a) ||
  c.toNat == 0x2028 || c.toNat == 0x2029 || c.toNat == 0x202f ||
  c.toNat == 0x205f || c.toNat == 0x3000

/-- Python `str.strip()` (strip whitespace from both ends). -/
def strip (l : Str) : Str :=
  ((l.dropWhile pySpace).reverse.dropWhile pySpace).reverse

/-- Python `str.strip(chars)` for an explicit character set. -/
def stripChars (cs : List Char) (l : Str) : Str :=
  ((l.dropWhile (cs.contains ·)).reverse.dropWhile (cs.contains ·)).reverse

/-- Numeric value of a list of ASCII digits (Python `int` on a digit string). -/
def digitsVal (l : Str) : Nat :=
  l.foldl (fun a c => a * 10 + (c.toNat - 48)) 0

/-- Decimal digits of a natural number (used for Python f-string formatting). -/
def natDigits (n : Nat) : Str :=
  Nat.toDigits 10 n

/-- Python `f"{n:02d}"`: decimal, left padded with zeros to width 2. -/
def pad2 (n : Nat) : Str :=
  if n < 10 then '0' :: natDigits n else natDigits n

/- ---------------------------------------------------------------------------
Path helpers (renamer.py lines 70-93).
--------------------------------------------------------------------------- -/

/-- Python `p.replace(chr(92), "/")`: backslashes become slashes. -/
def replBS (p : Str) : Str :=
  p.map (fun c => if c == '\\' then '/' else c)

/-- Stage of `norm_path`: ensure a leading slash. -/
def normLead (q : Str) : Str :=
  if q.head? = some '/' then q else '/' :: q

/-- Stage of `norm_path`: drop one trailing slash unless the path is the
root. -/
def normTrail (q : Str) : Str :=
  if q ≠ ['/'] ∧ q.getLast? = some '/' then q.dropLast else q

/-- Composition of the three `norm_path` stages (empty input maps to the
root). -/
def norm_path (p : Str) : Str :=
  if p = [] then ['/'] else normTrail (normLead (replBS p))

/-- renamer.py `join_path`. -/
def join_path (dir_path name : Str) : Str :=
  if norm_path dir_path = ['/'] then '/' :: name
  else norm_path dir_path ++ '/' :: name

/-- Split a string at its last slash: Python `p.rpartition(chr(47))`
restricted to the two components the caller uses (text before the separator,
text after).  When no slash occurs the first component is empty. -/
def rsplitSlash (q : Str) : Str × Str :=
  match q.reverse.dropWhile (fun c => !(c == '/')) with
  | [] => ([], q)
  | _ :: pre => (pre.reverse, (q.reverse.takeWhile (fun c => !(c == '/'))).reverse)

/-- renamer.py `split_path`. -/
def split_path (p : Str) : Str × Str :=
  if norm_path p = ['/'] then (['/'], [])
  else if (rsplitSlash (norm_path p)).1 = [] then (['/'], (rsplitSlash (norm_path p)).2)
  else ((rsplitSlash (norm_path p)).1, (rsplitSlash (norm_path p)).2)

/-- True when the string ends with two consecutive slashes. -/
def endsTwoSlash (q : Str) : Bool :=
  match q.reverse with
  | a :: b :: _ => a == '/' && b == '/'
  | _ => false

/- ---------------------------------------------------------------------------
Similarity scoring (renamer.py lines 1435-1453, `levenshtein_ratio`).
--------------------------------------------------------------------------- -/

/-- Unit cost of substituting one character for another (0 when equal). -/
def levCost (x y : Char) : Nat := if x = y then 0 else 1

/-- Levenshtein edit distance, specified by the textbook recursion on the
heads of the two lists (this is the reference definition the code is compared
against; `lev_eq_levenshtein` below identifies it with Mathlib\'s
`levenshtein`). -/
def lev : Str → Str → Nat
  | [], ys => ys.length
  | x :: xs, [] => (x :: xs).length
  | x :: xs, y :: ys =>
    min (min (lev xs ys + levCost x y) (lev xs (y :: ys) + 1)) (lev (x :: xs) ys + 1)

def lowerStr (l : Str) : Str := l.map Char.toLower

def rowGo (x : Char) : Nat → Nat → List Nat → Str → List Nat
  | _, _, [], _ => []
  | _, _, _ :: _, [] => []
  | diag, left, pj :: ps, y :: ys =>
    min (min (pj + 1) (left + 1)) (diag + levCost x y) ::
      rowGo x pj (min (min (pj + 1) (left + 1)) (diag + levCost x y)) ps ys

def rowStep (b : Str) (prev : List Nat) (x : Char) : List Nat :=
  match prev with
  | [] => []
  | p0 :: rest => (p0 + 1) :: rowGo x p0 (p0 + 1) rest b

def pyLevDist (a b : Str) : Nat :=
  (a.foldl (rowStep b) (List.range (b.length + 1))).getLastD 0

def levenshtein_ratio (a b : Str) : ℚ :=
  if lowerStr a = [] ∧ lowerStr b = [] then 1
  else if lowerStr a = [] ∨ lowerStr b = [] then 0
  else 1 - (pyLevDist (lowerStr a) (lowerStr b) : ℚ) /
    ((max (lowerStr a).length (lowerStr b).length : Nat) : ℚ)

def levRow (ws : Str) : Str → Str → List Nat
  | _, [] => []
  | pre, y :: ys => lev ws (pre ++ [y]) :: levRow ws (pre ++ [y]) ys

/- ---------------------------------------------------------------------------
Name parsing: character classes and text normalisation
(renamer.py `to_halfwidth`, `normalize_spaces`, `os.path` helpers).
--------------------------------------------------------------------------- -/

/-- Python re word characters (`\w`), restricted to the character ranges that
occur in this program's inputs: ASCII alphanumerics, underscore, CJK
ideographs, kana, hangul, and fullwidth alphanumerics.  All punctuation,
bracket and dash characters used by the code are non-word, as in Python. -/
def wordChar (c : Char) : Bool :=
  c.isAlphanum || c == '_' ||
  (0x3040 ≤ c.toNat && c.toNat ≤ 0x30FF) ||
  (0x3400 ≤ c.toNat && c.toNat ≤ 0x4DBF) ||
  (0x4E00 ≤ c.toNat && c.toNat ≤ 0x9FFF) ||
  (0xAC00 ≤ c.toNat && c.toNat ≤ 0xD7AF) ||
  (0xF900 ≤ c.toNat && c.toNat ≤ 0xFAFF) ||
  (0xFF10 ≤ c.toNat && c.toNat ≤ 0xFF19) ||
  (0xFF21 ≤ c.toNat && c.toNat ≤ 0xFF3A) ||
  (0xFF41 ≤ c.toNat && c.toNat ≤ 0xFF5A)

/-- Dash characters accepted by the season-range patterns (`[-~—–]`). -/
def dashChar (c : Char) : Bool :=
  c == '-' || c == '~' || c == '—' || c == '–'

/-- Separator class `[\s._\-]` used by the standalone-number pattern. -/
def pySep (c : Char) : Bool :=
  pySpace c || c == '.' || c == '_' || c == '-'

/-- Case-insensitive comparison against a lowercase ASCII letter (`c` equals
the letter or its uppercase form, which sits 32 code points below). -/
def ciEq (c a : Char) : Bool :=
  c == a || c.toNat + 32 == a.toNat

/-- renamer.py `to_halfwidth`: fullwidth ASCII and the ideographic space are
mapped to their halfwidth forms. -/
def to_halfwidth (l : Str) : Str :=
  l.map (fun c =>
    if c.toNat = 0x3000 then ' '
    else if 0xFF01 ≤ c.toNat ∧ c.toNat ≤ 0xFF5E then Char.ofNat (c.toNat - 0xFEE0)
    else c)

/-- Collapse every run of whitespace into a single ASCII space
(Python `re.sub(r"\s+", " ", s)`); the flag records whether the previous
character belonged to a whitespace run. -/
def collapseSpacesAux : Str → Bool → Str
  | [], _ => []
  | c :: cs, inRun =>
    if pySpace c then
      if inRun then collapseSpacesAux cs true
      else ' ' :: collapseSpacesAux cs true
    else c :: collapseSpacesAux cs false

/-- Entry point of the whitespace collapse. -/
def collapseSpaces (l : Str) : Str :=
  collapseSpacesAux l false

/-- renamer.py `normalize_spaces`. -/
def normalize_spaces (l : Str) : Str :=
  strip (collapseSpaces l)

/-- Python `str.lower` (ASCII model). -/
def toLowerStr (l : Str) : Str :=
  l.map Char.toLower

/-- POSIX `os.path.basename`: the text after the last slash. -/
def basename (p : Str) : Str :=
  (p.reverse.takeWhile (fun c => !(c == '/'))).reverse

/-- POSIX `os.path.splitext`: split at the last dot of the basename, unless
every character before that dot (within the basename) is itself a dot. -/
def splitext (p : Str) : Str × Str :=
  let pre := (p.reverse.dropWhile (fun c => !(c == '/'))).reverse
  let base := basename p
  let ld := base.takeWhile (fun c => c == '.')
  let rest := base.dropWhile (fun c => c == '.')
  let rr := rest.reverse
  let afterDot := rr.takeWhile (fun c => !(c == '.'))
  let fromDot := rr.dropWhile (fun c => !(c == '.'))
  match fromDot with
  | [] => (p, [])
  | _ :: stemRev => (pre ++ ld ++ stemRev.reverse, '.' :: afterDot.reverse)

/-- Literal match at the head of a list; returns the rest on success. -/
def matchLit : Str → Str → Option Str
  | [], l => some l
  | _ :: _, [] => none
  | w :: ws, c :: cs => if c == w then matchLit ws cs else none

/-- Case-insensitive literal match (pattern given in lowercase ASCII). -/
def matchLitCI : Str → Str → Option Str
  | [], l => some l
  | _ :: _, [] => none
  | w :: ws, c :: cs => if ciEq c w then matchLitCI ws cs else none

/-- True when `w` occurs at the head of `l`. -/
def startsWithSeq (w l : Str) : Bool :=
  (matchLit w l).isSome

/-- True when `w` occurs anywhere in `l` (Python `w in l`). -/
def containsSeq (w : Str) : Str → Bool
  | [] => (matchLit w []).isSome
  | c :: cs => startsWithSeq w (c :: cs) || containsSeq w cs

/- ---------------------------------------------------------------------------
Leading release-tag removal (the two anchored re.sub calls in
`parse_episode_from_name`, renamer.py lines 738-739).
--------------------------------------------------------------------------- -/

/-- Python `re.sub(r"^\[[^\]]+\]\s*", "", stem)`: drop one leading
square-bracket tag together with the whitespace after it. -/
def subLeadTag1 (stem : Str) : Str :=
  match stem with
  | c :: rest =>
    if c == '[' then
      match rest.takeWhile (fun x => !(x == ']')), rest.dropWhile (fun x => !(x == ']')) with
      | [], _ => stem
      | _, [] => stem
      | _, _ :: tail => tail.dropWhile pySpace
    else stem
  | [] => stem

/-- Python `re.sub(r"^[【\[][^】\]]+[】\]]\s*", "", stem)`: drop one leading
square- or lenticular-bracket tag together with the whitespace after it. -/
def subLeadTag2 (stem : Str) : Str :=
  match stem with
  | c :: rest =>
    if c == '【' || c == '[' then
      match rest.takeWhile (fun x => !(x == '】') && !(x == ']')),
          rest.dropWhile (fun x => !(x == '】') && !(x == ']')) with
      | [], _ => stem
      | _, [] => stem
      | _, _ :: tail => tail.dropWhile pySpace
    else stem
  | [] => stem

/-- The processed stem on which `parse_episode_from_name` runs its regular
expressions: strip, basename, extension split, leading-tag removal,
halfwidth folding and whitespace normalisation (renamer.py lines 730-741). -/
def processedStem (name : Str) : Str :=
  normalize_spaces (to_halfwidth
    (strip (subLeadTag2 (strip (subLeadTag1 (splitext (basename (strip name))).1)))))

/- ---------------------------------------------------------------------------
Chinese numerals (renamer.py `CN_NUM`, `chinese_to_int`).
--------------------------------------------------------------------------- -/

/-- renamer.py `CN_NUM` lookup. -/
def cnNum (c : Char) : Option Nat :=
  if c = '零' then some 0
  else if c = '一' then some 1
  else if c = '二' then some 2
  else if c = '两' then some 2
  else if c = '三' then some 3
  else if c = '四' then some 4
  else if c = '五' then some 5
  else if c = '六' then some 6
  else if c = '七' then some 7
  else if c = '八' then some 8
  else if c = '九' then some 9
  else if c = '十' then some 10
  else none

/-- Characters of the regex class `[一二三四五六七八九十\d]` (note: `零` and
`两` are convertible by `chinese_to_int` but are not in the class). -/
def cnClass (c : Char) : Bool :=
  c.isDigit || c == '一' || c == '二' || c == '三' || c == '四' || c == '五' ||
  c == '六' || c == '七' || c == '八' || c == '九' || c == '十'

/-- renamer.py `chinese_to_int`. -/
def chinese_to_int (s : Str) : Option Nat :=
  let s := strip s
  if s = [] then none
  else if s.all Char.isDigit then some (digitsVal s)
  else if s = ['十'] then some 10
  else
    match s with
    | [a, b] =>
      if a = '十' then
        match cnNum b with
        | some v => some (10 + v)
        | none => cnFold s
      else if b = '十' then
        match cnNum a with
        | some v => some (v * 10)
        | none => cnFold s
      else cnFold s
    | [a, b, c] =>
      if b = '十' then
        match cnNum a, cnNum c with
        | some va, some vc => some (va * 10 + vc)
        | _, _ => cnFold s
      else cnFold s
    | _ => cnFold s
where
  /-- Fallback digit-by-digit accumulation (`total * 10 + CN_NUM[ch]`). -/
  cnFold (s : Str) : Option Nat :=
    s.foldl (fun acc c =>
      match acc, cnNum c with
      | some t, some v => some (t * 10 + v)
      | _, _ => none) (some 0)

/- ---------------------------------------------------------------------------
Season parsing (renamer.py lines 360-408, `parse_season_from_text`).
Each regular expression of the source is implemented as a deterministic
left-to-right scanner; the digit quantifiers are resolved by the観
full-run arguments (a shorter match would leave a digit where the pattern
requires a non-digit).
--------------------------------------------------------------------------- -/

/-- Word-boundary check after a match: true at the end of the string or when
the next character is not a word character. -/
def boundaryNW (l : Str) : Bool :=
  match l with
  | [] => true
  | x :: _ => !(wordChar x)

/-- Boundary check of the standalone season marker: end of string or a
character that is not an ASCII alphanumeric. -/
def boundaryNA (l : Str) : Bool :=
  match l with
  | [] => true
  | x :: _ => !(x.isAlphanum)

/-- Matcher for the tail `\s*[-~—–]\s*\d{1,2}\s*季` of the season-range guard
`(?:第\s*)?\d{1,2}\s*[-~—–]\s*\d{1,2}\s*季`. -/
def rangeCnTail (l : Str) : Bool :=
  match l.dropWhile pySpace with
  | c :: r2 =>
    dashChar c &&
      (let r3 := r2.dropWhile pySpace
       let d2 := r3.takeWhile Char.isDigit
       let r4 := r3.dropWhile Char.isDigit
       decide (1 ≤ d2.length) && decide (d2.length ≤ 2) &&
         (match r4.dropWhile pySpace with
          | m :: _ => m == '季'
          | [] => false))
  | [] => false

/-- Head matcher for the season-range guard (the leading `\d{1,2}`, trying
two digits and then one). -/
def rangeCnHere : Str → Bool
  | [] => false
  | a :: rest =>
    a.isDigit &&
      (match rest with
       | b :: rest2 => (b.isDigit && rangeCnTail rest2) || rangeCnTail rest
       | [] => rangeCnTail [])

/-- Search for `(?:第\s*)?\d{1,2}\s*[-~—–]\s*\d{1,2}\s*季` (the optional `第`
prefix does not affect existence of a match). -/
def seasonRangeCn : Str → Bool
  | [] => false
  | c :: rest => rangeCnHere (c :: rest) || seasonRangeCn rest

/-- Matcher for `S\d{1,2}\s*[-~—–]\s*S?\d{1,2}\b` at the head of the list
(the leading word boundary is the `prevWord` argument). -/
def rangeSHere (prevWord : Bool) (l : Str) : Bool :=
  if prevWord then false
  else
    match l with
    | c :: rest =>
      ciEq c 's' &&
        (let d1 := rest.takeWhile Char.isDigit
         let r1 := rest.dropWhile Char.isDigit
         decide (1 ≤ d1.length) && decide (d1.length ≤ 2) &&
           (match r1.dropWhile pySpace with
            | d :: r3 =>
              dashChar d &&
                (let r4 := r3.dropWhile pySpace
                 let r5 := match r4 with
                   | s2 :: r6 => if ciEq s2 's' then r6 else r4
                   | [] => r4
                 let d2 := r5.takeWhile Char.isDigit
                 let r6 := r5.dropWhile Char.isDigit
                 decide (1 ≤ d2.length) && decide (d2.length ≤ 2) &&
                   boundaryNW r6)
            | [] => false))
    | [] => false

/-- Search for `(?i)\bS\d{1,2}\s*[-~—–]\s*S?\d{1,2}\b`. -/
def seasonRangeSAux : Str → Bool → Bool
  | [], _ => false
  | c :: rest, prevWord =>
    rangeSHere prevWord (c :: rest) || seasonRangeSAux rest (wordChar c)

/-- Entry point of the `S1-S3` style guard. -/
def seasonRangeS (l : Str) : Bool :=
  seasonRangeSAux l false

/-- Matcher for `(?:^|[^A-Za-z0-9])S(\d{1,2})(?:$|[^A-Za-z0-9])` at one
position (`prevOk` is true at the start of the string or after a character
that is not an ASCII alphanumeric). -/
def saSeasonHere (prevOk : Bool) (l : Str) : Option Nat :=
  if !prevOk then none
  else
    match l with
    | c :: rest =>
      if ciEq c 's' then
        let d := rest.takeWhile Char.isDigit
        let r := rest.dropWhile Char.isDigit
        if 1 ≤ d.length ∧ d.length ≤ 2 ∧ boundaryNA r = true then
          some (digitsVal d)
        else none
      else none
    | [] => none

/-- Leftmost search for the standalone season marker. -/
def findSaSeasonAux : Str → Bool → Option Nat
  | [], _ => none
  | c :: rest, prevOk =>
    match saSeasonHere prevOk (c :: rest) with
    | some v => some v
    | none => findSaSeasonAux rest (!(c.isAlphanum))

/-- Entry point for the standalone `S<nn>` season marker. -/
def findSaSeason (l : Str) : Option Nat :=
  findSaSeasonAux l true

/-- Matcher for `\bSeason\s*(\d{1,2})\b` at one position. -/
def seasonWordHere (prevWord : Bool) (l : Str) : Option Nat :=
  if prevWord then none
  else
    match matchLitCI ("season".data) l with
    | none => none
    | some r =>
      let r2 := r.dropWhile pySpace
      let d := r2.takeWhile Char.isDigit
      let r3 := r2.dropWhile Char.isDigit
      if 1 ≤ d.length ∧ d.length ≤ 2 ∧ boundaryNW r3 = true then
        some (digitsVal d)
      else none

/-- Leftmost search for `Season <nn>`. -/
def findSeasonWordAux : Str → Bool → Option Nat
  | [], _ => none
  | c :: rest, prevWord =>
    match seasonWordHere prevWord (c :: rest) with
    | some v => some v
    | none => findSeasonWordAux rest (wordChar c)

/-- Entry point for the `Season N` marker. -/
def findSeasonWord (l : Str) : Option Nat :=
  findSeasonWordAux l false

/-- Matcher for `第\s*([一二三四五六七八九十\d]+)\s*<marker>` at one position;
returns the captured group. -/
def cnSeasonHere (marker : Char) (l : Str) : Option Str :=
  match l with
  | c :: rest =>
    if c = '第' then
      let sp0 := rest.dropWhile pySpace
      let grp := sp0.takeWhile cnClass
      let r1 := sp0.dropWhile cnClass
      if 1 ≤ grp.length then
        match r1.dropWhile pySpace with
        | m :: _ => if m = marker then some grp else none
        | [] => none
      else none
    else none
  | [] => none

/-- Leftmost search for `第X<marker>`. -/
def findCnSeason (marker : Char) : Str → Option Str
  | [] => none
  | c :: rest =>
    match cnSeasonHere marker (c :: rest) with
    | some g => some g
    | none => findCnSeason marker rest

/-- Matcher for `\b(\d{1,2})\s*<marker>\b` at one position. -/
def numSeasonHere (prevWord : Bool) (marker : Char) (l : Str) : Option Nat :=
  if prevWord then none
  else
    let d := l.takeWhile Char.isDigit
    let r := l.dropWhile Char.isDigit
    if 1 ≤ d.length ∧ d.length ≤ 2 then
      match r.dropWhile pySpace with
      | m :: r2 =>
        if m = marker ∧ boundaryNW r2 = true then
          some (digitsVal d)
        else none
      | [] => none
    else none

/-- Leftmost search for `<nn><marker>`. -/
def findNumSeasonAux (marker : Char) : Str → Bool → Option Nat
  | [], _ => none
  | c :: rest, prevWord =>
    match numSeasonHere prevWord marker (c :: rest) with
    | some v => some v
    | none => findNumSeasonAux marker rest (wordChar c)

/-- Entry point for the `<nn>季` / `<nn>部` markers. -/
def findNumSeason (marker : Char) (l : Str) : Option Nat :=
  findNumSeasonAux marker l false

/-- Matcher for
`(?:^|\D)(\d{1,2})\s*(?:附带|含|带)\s*\d{1,2}\s*[-~—–]\s*\d{1,2}` at one
position (`prevOk` true at the start or after a non-digit). -/
def fudaiHere (prevOk : Bool) (l : Str) : Option Nat :=
  if !prevOk then none
  else
    let d := l.takeWhile Char.isDigit
    let r := l.dropWhile Char.isDigit
    if 1 ≤ d.length ∧ d.length ≤ 2 then
      let r1 := r.dropWhile pySpace
      let r2opt :=
        match matchLit ("附带".data) r1 with
        | some r2 => some r2
        | none =>
          match matchLit ("含".data) r1 with
          | some r2 => some r2
          | none => matchLit ("带".data) r1
      match r2opt with
      | none => none
      | some r2 =>
        let r3 := r2.dropWhile pySpace
        let d2 := r3.takeWhile Char.isDigit
        let r4 := r3.dropWhile Char.isDigit
        if 1 ≤ d2.length ∧ d2.length ≤ 2 then
          match r4.dropWhile pySpace with
          | dd :: r6 =>
            if dashChar dd ∧ 1 ≤ ((r6.dropWhile pySpace).takeWhile Char.isDigit).length then
              some (digitsVal d)
            else none
          | [] => none
        else none
    else none

/-- Leftmost search for the `附带` packaging idiom. -/
def findFudaiAux : Str → Bool → Option Nat
  | [], _ => none
  | c :: rest, prevOk =>
    match fudaiHere prevOk (c :: rest) with
    | some v => some v
    | none => findFudaiAux rest (!(c.isDigit))

/-- Entry point for the `附带` idiom. -/
def findFudai (l : Str) : Option Nat :=
  findFudaiAux l true

/-- renamer.py `parse_season_from_text`. -/
def parse_season_from_text (text : Str) : Option Nat :=
  let t := strip (to_halfwidth text)
  if t = [] then none
  else if seasonRangeS t then none
  else if seasonRangeCn t then none
  else
    match findSaSeason t with
    | some s => some s
    | none =>
    match findSeasonWord t with
    | some s => some s
    | none =>
    match findCnSeason '季' t with
    | some grp => chinese_to_int grp
    | none =>
    match findNumSeason '季' t with
    | some s => some s
    | none =>
    match findCnSeason '部' t with
    | some grp => chinese_to_int grp
    | none =>
    match findNumSeason '部' t with
    | some s => some s
    | none => findFudai t

/- ---------------------------------------------------------------------------
Quality tail extraction (renamer.py lines 680-718, `_quality_tokens`).
--------------------------------------------------------------------------- -/

/-- Scan for a here-matcher that needs the previous character's wordness
(for a leading `\b`). -/
def scanPrev (f : Bool → Str → Option Str) : Str → Bool → Option Str
  | [], _ => none
  | c :: rest, prevW =>
    match f prevW (c :: rest) with
    | some t => some t
    | none => scanPrev f rest (wordChar c)

/-- Scan for a here-matcher with no left boundary. -/
def seqScan (f : Str → Option Str) : Str → Option Str
  | [] => none
  | c :: rest =>
    match f (c :: rest) with
    | some t => some t
    | none => seqScan f rest

/-- Here-matcher for a `\b<literal>\b` token (the literal consists of word
characters only). -/
def tokBHere (w : Str) (prevW : Bool) (l : Str) : Option Str :=
  if prevW then none
  else
    match matchLit w l with
    | some r => if boundaryNW r then some w else none
    | none => none

/-- Search for a `\b<literal>\b` token. -/
def findTokenB (w : Str) (l : Str) : Option Str :=
  scanPrev (tokBHere w) l false

/-- Plain substring token (patterns without word boundaries). -/
def findPlainTok (w : Str) (l : Str) : Option Str :=
  if containsSeq w l then some w else none

/-- Here-matcher for `\bhdr10\+?\b`: after `hdr10`, a plus is kept only when
a word character follows it (otherwise the optional plus backtracks to the
boundary after the digit). -/
def hdr10Here (prevW : Bool) (l : Str) : Option Str :=
  if prevW then none
  else
    match matchLit ("hdr10".data) l with
    | some r =>
      match r with
      | c :: r2 =>
        if c == '+' then
          if (match r2 with | [] => false | x :: _ => wordChar x) then
            some ("hdr10+".data)
          else some ("hdr10".data)
        else if boundaryNW r then some ("hdr10".data) else none
      | [] => some ("hdr10".data)
    | none => none

/-- Here-matcher for `web[- ]?dl` (and, with other literals, `dts[- ]?hd`):
an optional single dash or space between the two literals. -/
def midOptHere (w1 w2 : Str) (l : Str) : Option Str :=
  match matchLit w1 l with
  | some r =>
    (match r with
     | c :: r2 =>
       if c == '-' || c == ' ' then
         match matchLit w2 r2 with
         | some _ => some (w1 ++ [c] ++ w2)
         | none =>
           match matchLit w2 r with
           | some _ => some (w1 ++ w2)
           | none => none
       else
         match matchLit w2 r with
         | some _ => some (w1 ++ w2)
         | none => none
     | [] => none)
  | none => none

/-- Here-matcher for `dolby\s*vision` (the matched text keeps the spaces). -/
def dolbyVisionHere (l : Str) : Option Str :=
  match matchLit ("dolby".data) l with
  | some r =>
    match matchLit ("vision".data) (r.dropWhile pySpace) with
    | some _ => some (("dolby".data) ++ r.takeWhile pySpace ++ ("vision".data))
    | none => none
  | none => none

/-- The pattern list of `_quality_tokens`, in source order, evaluated on the
lowercased text. -/
def qmatches (t : Str) : List (Option Str) :=
  [ findTokenB ("4k".data) t,
    findTokenB ("2160p".data) t,
    findTokenB ("1080p".data) t,
    findTokenB ("720p".data) t,
    scanPrev hdr10Here t false,
    findTokenB ("hdr".data) t,
    findTokenB ("dv".data) t,
    seqScan dolbyVisionHere t,
    seqScan (midOptHere ("web".data) ("dl".data)) t,
    findPlainTok ("webrip".data) t,
    findPlainTok ("bluray".data) t,
    findPlainTok ("bdrip".data) t,
    findPlainTok ("remux".data) t,
    findPlainTok ("hevc".data) t,
    findPlainTok ("x265".data) t,
    findPlainTok ("h265".data) t,
    findPlainTok ("x264".data) t,
    findPlainTok ("h264".data) t,
    findPlainTok ("truehd".data) t,
    seqScan (midOptHere ("dts".data) ("hd".data)) t,
    findTokenB ("dts".data) t,
    findTokenB ("aac".data) t,
    findTokenB ("atmos".data) t,
    findTokenB ("nf".data) t,
    findTokenB ("amzn".data) t,
    findTokenB ("hmax".data) t,
    findTokenB ("中字".data) t,
    findTokenB ("双语".data) t,
    findTokenB ("国配".data) t,
    findTokenB ("国语".data) t,
    findTokenB ("粤语".data) t,
    findTokenB ("中英".data) t ]

/-- renamer.py `_quality_tokens`: collect the matched tokens in pattern
order, normalise a few spellings, and de-duplicate. -/
def quality_tokens (text : Str) : List Str :=
  (qmatches (toLowerStr text)).foldl (fun acc m =>
    match m with
    | none => acc
    | some raw =>
      let tok := raw.filter (fun c => !(pySpace c))
      let tok :=
        if tok = ("web-dl".data) ∨ tok = ("weBDL".data) ∨ tok = ("weBdl".data) then
          ("WEB-DL".data)
        else tok
      let tok := if toLowerStr tok = ("webrip".data) then ("WEBRIP".data) else tok
      let tok := if toLowerStr tok = ("bluray".data) then ("BluRay".data) else tok
      if acc.contains tok then acc else acc ++ [tok]) []

/-- Python `" ".join`. -/
def joinSp : List Str → Str
  | [] => []
  | x :: xs => x ++ xs.foldl (fun a s => a ++ ' ' :: s) []

/- ---------------------------------------------------------------------------
Episode parsing (renamer.py lines 673-795).
--------------------------------------------------------------------------- -/

/-- Matcher for `S(\d{1,2})\s*E(\d{1,3})` at the head of the list; returns
season, episode, and the length of the matched text. -/
def sxxeyyTail (s slen splen : Nat) : Str → Option (Nat × Nat × Nat)
  | e :: r3 =>
    if ciEq e 'e' then
      if 1 ≤ (r3.takeWhile Char.isDigit).length then
        some (s, digitsVal ((r3.takeWhile Char.isDigit).take 3),
          1 + slen + splen + 1 + min (r3.takeWhile Char.isDigit).length 3)
      else none
    else none
  | [] => none

def sxxeyyHere : Str → Option (Nat × Nat × Nat)
  | c :: rest =>
    if ciEq c 's' then
      if 1 ≤ (rest.takeWhile Char.isDigit).length ∧
          (rest.takeWhile Char.isDigit).length ≤ 2 then
        sxxeyyTail (digitsVal (rest.takeWhile Char.isDigit))
          (rest.takeWhile Char.isDigit).length
          ((rest.dropWhile Char.isDigit).takeWhile pySpace).length
          ((rest.dropWhile Char.isDigit).dropWhile pySpace)
      else none
    else none
  | [] => none

/-- Leftmost search for `SxxEyy`; returns start index, season, episode and
end index. -/
def findSxxEyyAux : Str → Nat → Option (Nat × Nat × Nat × Nat)
  | [], _ => none
  | c :: rest, i =>
    match sxxeyyHere (c :: rest) with
    | some (s, e, len) => some (i, s, e, i + len)
    | none => findSxxEyyAux rest (i + 1)

/-- Entry point of the `SxxEyy` search (renamer.py `SXXEYY_RE`). -/
def findSxxEyy (l : Str) : Option (Nat × Nat × Nat × Nat) :=
  findSxxEyyAux l 0

def oneX02Tail (s slen sp1len : Nat) : Str → Option (Nat × Nat × Nat)
  | x :: r3 =>
    if x == 'x' || x == 'X' then
      if 1 ≤ ((r3.dropWhile pySpace).takeWhile Char.isDigit).length ∧
          ((r3.dropWhile pySpace).takeWhile Char.isDigit).length ≤ 3 ∧
          boundaryNW ((r3.dropWhile pySpace).dropWhile Char.isDigit) = true then
        some (s, digitsVal ((r3.dropWhile pySpace).takeWhile Char.isDigit),
          slen + sp1len + 1 + (r3.takeWhile pySpace).length +
            ((r3.dropWhile pySpace).takeWhile Char.isDigit).length)
      else none
    else none
  | [] => none

/-- Matcher for `\b(\d{1,2})\s*[xX]\s*(\d{1,3})\b` at one position. -/
def oneX02Here (prevW : Bool) (l : Str) : Option (Nat × Nat × Nat) :=
  if prevW then none
  else
    if 1 ≤ (l.takeWhile Char.isDigit).length ∧
        (l.takeWhile Char.isDigit).length ≤ 2 then
      oneX02Tail (digitsVal (l.takeWhile Char.isDigit))
        (l.takeWhile Char.isDigit).length
        ((l.dropWhile Char.isDigit).takeWhile pySpace).length
        ((l.dropWhile Char.isDigit).dropWhile pySpace)
    else none

/-- Leftmost search for `NxM` (renamer.py `_1X02_RE`). -/
def find1x02Aux : Str → Bool → Nat → Option (Nat × Nat × Nat × Nat)
  | [], _, _ => none
  | c :: rest, prevW, i =>
    match oneX02Here prevW (c :: rest) with
    | some (s, e, len) => some (i, s, e, i + len)
    | none => find1x02Aux rest (wordChar c) (i + 1)

/-- Entry point of the `NxM` search. -/
def find1x02 (l : Str) : Option (Nat × Nat × Nat × Nat) :=
  find1x02Aux l false 0

/-- Digits-with-trailing-boundary step of `\b(?:EP|E)(\d{1,3})\b`. -/
def epTryDigits (l : Str) : Option Nat :=
  let d := l.takeWhile Char.isDigit
  let r := l.dropWhile Char.isDigit
  if 1 ≤ d.length ∧ d.length ≤ 3 ∧ boundaryNW r = true then
    some (digitsVal d)
  else none

/-- Matcher for `\b(?:EP|E)(\d{1,3})\b` at one position (the `EP` branch is
tried before the `E` branch, as in the regex alternation). -/
def epNumHere (prevW : Bool) (l : Str) : Option Nat :=
  if prevW then none
  else
    match l with
    | [] => none
    | c :: rest =>
      if ciEq c 'e' then
        match rest with
        | p :: r2 =>
          if ciEq p 'p' then
            match epTryDigits r2 with
            | some v => some v
            | none => epTryDigits rest
          else epTryDigits rest
        | [] => none
      else none

/-- Leftmost search for `E<nn>` / `EP<nn>` (renamer.py `_EP_NUM_RE`). -/
def findEpNumAux : Str → Bool → Option Nat
  | [], _ => none
  | c :: rest, prevW =>
    match epNumHere prevW (c :: rest) with
    | some v => some v
    | none => findEpNumAux rest (wordChar c)

/-- Entry point of the `E<nn>` search. -/
def findEpNum (l : Str) : Option Nat :=
  findEpNumAux l false

/-- Matcher for `第\s*([一二三四五六七八九十\d]{1,4})\s*(?:集|话|回)` at one
position; returns the captured group. -/
def cnEpHere (l : Str) : Option Str :=
  match l with
  | c :: rest =>
    if c = '第' then
      let sp0 := rest.dropWhile pySpace
      let grp := sp0.takeWhile cnClass
      let r1 := sp0.dropWhile cnClass
      if 1 ≤ grp.length ∧ grp.length ≤ 4 then
        match r1.dropWhile pySpace with
        | m :: _ => if m = '集' ∨ m = '话' ∨ m = '回' then some grp else none
        | [] => none
      else none
    else none
  | [] => none

/-- Leftmost search for `第X集/话/回` (renamer.py `_CN_EP_RE`). -/
def findCnEp : Str → Option Str
  | [] => none
  | c :: rest =>
    match cnEpHere (c :: rest) with
    | some g => some g
    | none => findCnEp rest

/-- Matcher for `^\s*(\d{1,3})(?!\d)` (renamer.py leading episode number). -/
def leadNumHere (l : Str) : Option Nat :=
  let l2 := l.dropWhile pySpace
  let d := l2.takeWhile Char.isDigit
  if 1 ≤ d.length ∧ d.length ≤ 3 then some (digitsVal d) else none

/-- All captures of `(?:^|[\s._\-])0*(\d{1,3})(?=$|[\s._\-])` in order
(renamer.py standalone episode-number fallback): at each position after a
separator, leading zeros are absorbed greedily so that at most three digits
remain, and the whole digit run must end at a separator or at the end. -/
def standaloneNums : Str → Bool → List Nat
  | [], _ => []
  | c :: rest, ok =>
    let run := (c :: rest).takeWhile Char.isDigit
    let after := (c :: rest).dropWhile Char.isDigit
    let nn := run.length
    let z := (run.takeWhile (fun x => x == '0')).length
    let a := min z (nn - 1)
    if ok && c.isDigit &&
        (nn - a ≤ 3 && (match after with | [] => true | x :: _ => pySep x)) then
      digitsVal (run.drop a) :: standaloneNums rest false
    else
      standaloneNums rest (pySep c)

/-- Body of renamer.py `parse_episode_from_name` on the processed stem. -/
def parse_episode_core (stem2 : Str) :
    Option Nat × Option Nat × Bool × Str :=
    let isRange := seasonRangeCn stem2 || seasonRangeS stem2
    let seasonHint := parse_season_from_text stem2
    match findSxxEyy stem2 with
    | some (_, s, e, endIdx) =>
      let rest := stripChars (" ._-".data) (stem2.drop endIdx)
      (some s, some e, true, joinSp (quality_tokens (stem2 ++ [' '] ++ rest)))
    | none =>
    match find1x02 stem2 with
    | some (_, s, e, endIdx) =>
      let rest := stripChars (" ._-".data) (stem2.drop endIdx)
      (some s, some e, true, joinSp (quality_tokens (stem2 ++ [' '] ++ rest)))
    | none =>
    match findEpNum stem2 with
    | some e => (seasonHint, some e, false, joinSp (quality_tokens stem2))
    | none =>
    match findCnEp stem2 with
    | some grp =>
      (seasonHint, chinese_to_int grp, false, joinSp (quality_tokens stem2))
    | none =>
      let lead :=
        if !isRange then
          match leadNumHere stem2 with
          | some e => if 1 ≤ e ∧ e ≤ 200 then some e else none
          | none => none
        else none
      match lead with
      | some e => (seasonHint, some e, false, joinSp (quality_tokens stem2))
      | none =>
        let nums :=
          if !isRange then
            (standaloneNums stem2 true).filter (fun n => decide (1 ≤ n ∧ n ≤ 200))
          else []
        match nums with
        | n :: _ => (seasonHint, some n, false, joinSp (quality_tokens stem2))
        | [] => (seasonHint, none, false, joinSp (quality_tokens stem2))

/-- renamer.py `parse_episode_from_name`. -/
def parse_episode_from_name (name : Str) :
    Option Nat × Option Nat × Bool × Str :=
  if strip name = [] then (none, none, false, [])
  else parse_episode_core (processedStem name)

/- ---------------------------------------------------------------------------
Canonical video naming (renamer.py lines 249-250, 1820-1862).
--------------------------------------------------------------------------- -/

/-- The fixed resolution alternatives of `_RES_RE`, in alternation order. -/
def resNums : List Str :=
  [("4320".data), ("2160".data), ("1440".data), ("1080".data),
   ("720".data), ("576".data), ("540".data), ("480".data)]

/-- Try one fixed resolution number followed by `p` and a word boundary. -/
def resTry (w : Str) (l : Str) : Option Str :=
  match matchLit w l with
  | some r =>
    match r with
    | p :: r2 =>
      if (p == 'p' || p == 'P') && boundaryNW r2 then some (w ++ ['p']) else none
    | [] => none
  | none => none

/-- Matcher for `\b(4320|2160|1440|1080|720|576|540|480)p\b` at one
position. -/
def resHere (prevW : Bool) (l : Str) : Option Str :=
  if prevW then none
  else
    (resNums.foldl (fun acc w =>
      match acc with
      | some r => some r
      | none => resTry w l) none)

/-- Leftmost search of `_RES_RE`. -/
def findRes (l : Str) : Option Str :=
  scanPrev resHere l false

/-- renamer.py `extract_resolution`. -/
def extract_resolution (text : Str) : Str :=
  if text = [] then []
  else
    match findRes text with
    | some r => r
    | none =>
      let low := toLowerStr (to_halfwidth text)
      if containsSeq ("8k".data) low then ("4320p".data)
      else if containsSeq ("4k".data) low || containsSeq ("uhd".data) low then
        ("2160p".data)
      else []

/-- Characters replaced by a space in `safe_filename`
(`[<>:"/\\|?*\x00-\x1f]`). -/
def badFileChar (c : Char) : Bool :=
  c == '<' || c == '>' || c == ':' || c == '"' || c == '/' || c == '\\' ||
  c == '|' || c == '?' || c == '*' || c.toNat ≤ 0x1f

/-- renamer.py `safe_filename`. -/
def safe_filename (name : Str) : Str :=
  strip (name.map (fun c => if badFileChar c then ' ' else c))

/-- renamer.py `build_new_video_name`: canonical episode filename
`{series} - S{season:02d}E{episode:02d}[ - {resolution}]{ext}`. -/
def build_new_video_name (series : Str) (season episode : Nat)
    (old_name suffix : Str) : Str :=
  safe_filename (normalize_spaces (
    if extract_resolution (old_name ++ [' '] ++ suffix) ≠ [] then
      series ++ (" - S".data) ++ pad2 season ++ ['E'] ++ pad2 episode ++
        (" - ".data) ++ extract_resolution (old_name ++ [' '] ++ suffix)
    else
      series ++ (" - S".data) ++ pad2 season ++ ['E'] ++ pad2 episode)) ++
  (splitext old_name).2

/- ---------------------------------------------------------------------------
Declarative reading of the explicit `SxxEyy` marker and its relation to the
scanner.
--------------------------------------------------------------------------- -/

/-- Declarative statement that the case-insensitive pattern
`S(\d{1,2})\s*E(\d{1,3})` matches in `l` at position `i`, capturing season
`s` and episode `e`. -/
def SxxEyyMatchAt (l : Str) (i s e : Nat) : Prop :=
  ∃ (pre d1 sp d2 post : Str) (c1 c2 : Char),
    l = pre ++ c1 :: (d1 ++ sp ++ c2 :: (d2 ++ post)) ∧
    pre.length = i ∧
    (c1 = 's' ∨ c1 = 'S') ∧
    d1 ≠ [] ∧ d1.length ≤ 2 ∧ (∀ c ∈ d1, c.isDigit = true) ∧
    (∀ c ∈ sp, pySpace c = true) ∧
    (c2 = 'e' ∨ c2 = 'E') ∧
    d2 ≠ [] ∧ d2.length ≤ 3 ∧ (∀ c ∈ d2, c.isDigit = true) ∧
    s = digitsVal d1 ∧ e = digitsVal d2

/-- The `prevW` flag the `NxM` scanner carries at position `i` of `l` when it
started with flag `w0`: whether the character before position `i` is a word
character. -/
def pwAt (l : Str) (i : Nat) (w0 : Bool) : Bool :=
  if i = 0 then w0 else wordChar (l.getD (i - 1) ' ')

/-- Declarative statement that the pattern `\b(\d{1,2})\s*[xX]\s*(\d{1,3})\b`
matches in `l` at position `i`, capturing season `s` and episode `e`. -/
def OneX02MatchAt (l : Str) (i s e : Nat) : Prop :=
  ∃ (pre d1 sp1 sp2 d2 post : Str) (x : Char),
    l = pre ++ (d1 ++ (sp1 ++ (x :: (sp2 ++ (d2 ++ post))))) ∧
    pre.length = i ∧
    (∀ c, pre.getLast? = some c → wordChar c = false) ∧
    d1 ≠ [] ∧ d1.length ≤ 2 ∧ (∀ c ∈ d1, c.isDigit = true) ∧
    (∀ c ∈ sp1, pySpace c = true) ∧
    (x = 'x' ∨ x = 'X') ∧
    (∀ c ∈ sp2, pySpace c = true) ∧
    d2 ≠ [] ∧ d2.length ≤ 3 ∧ (∀ c ∈ d2, c.isDigit = true) ∧
    (∀ c, post.head? = some c → wordChar c = false) ∧
    s = digitsVal d1 ∧ e = digitsVal d2

/- ---------------------------------------------------------------------------
Greedy (regex-semantics) reading of the `SxxEyy` marker.
--------------------------------------------------------------------------- -/

/-- `SxxEyyMatchAt` together with greediness of the episode capture: the
episode digits are either the full three allowed by `\d{1,3}` or are followed
by a non-digit, exactly as the regex engine would capture them. -/
def SxxEyyGreedyAt (l : Str) (i s e : Nat) : Prop :=
  ∃ (pre d1 sp d2 post : Str) (c1 c2 : Char),
    l = pre ++ c1 :: (d1 ++ sp ++ c2 :: (d2 ++ post)) ∧
    pre.length = i ∧
    (c1 = 's' ∨ c1 = 'S') ∧
    d1 ≠ [] ∧ d1.length ≤ 2 ∧ (∀ c ∈ d1, c.isDigit = true) ∧
    (∀ c ∈ sp, pySpace c = true) ∧
    (c2 = 'e' ∨ c2 = 'E') ∧
    d2 ≠ [] ∧ d2.length ≤ 3 ∧ (∀ c ∈ d2, c.isDigit = true) ∧
    (d2.length = 3 ∨ ∀ x, post.head? = some x → x.isDigit = false) ∧
    s = digitsVal d1 ∧ e = digitsVal d2

/- ---------------------------------------------------------------------------
Claim C4: conflict resolution (renamer.py lines 252-276).
--------------------------------------------------------------------------- -/

/-- The candidate name `f"{stem} ({i}){ext}"` of the conflict loop. -/
def candName (stem ext : Str) (i : Nat) : Str :=
  stem ++ (" (".data) ++ natDigits i ++ (")".data) ++ ext

/-- The `for i in range(1, 200)` loop of `unique_name_in_parent`: try
candidates until one is not in `existing`; give up with `""` when the fuel
(199 attempts) is exhausted. -/
def uniqLoop (stem ext : Str) (existing : List Str) : Nat → Nat → Str
  | 0, _ => []
  | fuel + 1, i =>
    if candName stem ext i ∈ existing then uniqLoop stem ext existing fuel (i + 1)
    else candName stem ext i

/-- renamer.py `unique_name_in_parent`, parametrised by the `ON_CONFLICT`
environment value and by the sibling names the client listed in the parent
directory. -/
def unique_name_in_parent (mode : Str) (existing : List Str) (desired : Str) :
    Str :=
  if safe_filename desired ∈ existing then
    if toLowerStr (strip mode) = ("skip".data) then []
    else
      uniqLoop (splitext (safe_filename desired)).1
        (splitext (safe_filename desired)).2 existing 199 1
  else safe_filename desired

/- ---------------------------------------------------------------------------
Claim C5: dry-run purity (renamer.py lines 1881-1911 and 2226-2305).
--------------------------------------------------------------------------- -/

/-- A directory entry as returned by the AList client. -/
structure DirEntry where
  name : Str
  isDir : Bool
deriving DecidableEq

/-- A mutating filesystem call on the AList client. -/
inductive FsOp where
  | mkdir (path : Str)
  | rename (path : Str) (newName : Str)
  | move (srcDir dstDir : Str) (names : List Str)
  | remove (dir : Str) (names : List Str)
deriving DecidableEq

/-- An undo (OperationRecord) entry as written by the UndoLogger. -/
inductive URec where
  | rename (parent old new : Str)
  | move (srcDir dstDir : Str) (names : List Str)
deriving DecidableEq

/-- renamer.py `maybe_rename_path` (with `dry_return_new=True` and an undo
logger present), returning the resulting path together with the mutating
client calls made and the undo records written. -/
def maybe_rename_path (mode : Str) (existing : List Str)
    (full_path new_name : Str) (dry_run : Bool) : Str × List FsOp × List URec :=
  if (split_path full_path).2 = safe_filename new_name ∨
      (split_path full_path).2 = [] then
    (full_path, [], [])
  else if unique_name_in_parent mode existing (safe_filename new_name) = [] then
    (full_path, [], [])
  else if dry_run then
    (join_path (split_path full_path).1
      (unique_name_in_parent mode existing (safe_filename new_name)), [], [])
  else
    (join_path (split_path full_path).1
      (unique_name_in_parent mode existing (safe_filename new_name)),
     [FsOp.rename full_path
        (unique_name_in_parent mode existing (safe_filename new_name))],
     [URec.rename (split_path full_path).1 (split_path full_path).2
        (unique_name_in_parent mode existing (safe_filename new_name))])

/-- renamer.py `SUB_EXTS`. -/
def SUB_EXTS : List Str :=
  [(".srt".data), (".ass".data), (".ssa".data), (".vtt".data),
   (".sub".data), (".idx".data), (".sup".data)]

/-- renamer.py `SUBTITLE_EXTS`. -/
def SUBTITLE_EXTS : List Str :=
  [(".srt".data), (".ass".data), (".ssa".data), (".vtt".data),
   (".sub".data), (".idx".data)]

/-- renamer.py `SUBTITLE_DIR_NAMES`. -/
def SUBTITLE_DIR_NAMES : List Str :=
  [("subs".data), ("sub".data), ("subtitle".data), ("subtitles".data),
   ("字幕".data), ("字幕组".data), ("subtitles&subs".data)]

/-- renamer.py `is_subtitle_dir_name`. -/
def is_subtitle_dir_name (name : Str) : Bool :=
  decide (toLowerStr (strip name) ∈ SUBTITLE_DIR_NAMES)

/-- Modelled from the spec: a season directory is a child folder "recognized
as a season (via NameParser's season parsing)"; Python truthiness makes a
season value of 0 count as no recognition.  The source calls an
`is_season_dir` helper that is defined nowhere in the repository. -/
def is_season_dir (name : Str) : Option Nat :=
  match parse_season_from_text name with
  | some 0 => none
  | some s => some s
  | none => none

/-- renamer.py `season_folder_name` with the default `S{season:02d}` format
(season 0 is the Emby `Specials` folder). -/
def season_folder_name (season : Nat) : Str :=
  if season = 0 then ("Specials".data) else 'S' :: pad2 season

/-- Association-list update with Python dict semantics (`m[k] = v`). -/
def alSet (m : List (Nat × Str)) (k : Nat) (v : Str) : List (Nat × Str) :=
  m.filter (fun p => decide (p.1 ≠ k)) ++ [(k, v)]

/-- Association-list lookup (`m.get(k)`). -/
def alGet (m : List (Nat × Str)) (k : Nat) : Option Str :=
  (m.find? (fun p => decide (p.1 = k))).map (fun p => p.2)

/-- renamer.py `build_season_dir_map` (reading the directory through the
client's listing). -/
def build_season_dir_map (listing : Str → Option (List DirEntry))
    (series_path : Str) : List (Nat × Str) :=
  match listing series_path with
  | none => []
  | some entries =>
    entries.foldl (fun m ent =>
      if ent.isDir then
        match is_season_dir ent.name with
        | some s => alSet m s (join_path series_path ent.name)
        | none => m
      else m) []

/-- One subtitle file of `relocate_subtitles_in_show_root`: infer the season,
create the season directory when it is missing (an unconditional
`client.mkdir`, renamer.py line 2300), then call `maybe_move` with its `log`
and `dry_run` arguments swapped (renamer.py line 2305), which raises before
performing any client call.  Returns the updated season map, the mutating
calls made, and whether the run crashed. -/
def relocFile (season_map : List (Nat × Str)) (series_path : Str)
    (s_hint : Option Nat) (fn : Str) : List (Nat × Str) × List FsOp × Bool :=
  let s0 := match (parse_episode_from_name fn).1 with
    | some s => some s
    | none => s_hint
  let s1 := match s0 with
    | some s => s
    | none =>
      match season_map with
      | [(k, _)] => k
      | _ => 1
  match alGet season_map s1 with
  | some _ => (season_map, [], true)
  | none =>
    (alSet season_map s1 (join_path series_path (season_folder_name s1)),
     [FsOp.mkdir (join_path series_path (season_folder_name s1))], true)

/-- The file loop of `relocate_subtitles_in_show_root` over one candidate
directory: non-subtitle extensions are skipped, the first subtitle file
crashes the run inside the swapped `maybe_move` call. -/
def relocFiles (season_map : List (Nat × Str)) (series_path : Str)
    (s_hint : Option Nat) : List Str → List (Nat × Str) × List FsOp × Bool
  | [] => (season_map, [], false)
  | fn :: rest =>
    if toLowerStr (splitext fn).2 ∈ SUB_EXTS ∨
        toLowerStr (splitext fn).2 ∈ SUBTITLE_EXTS then
      relocFile season_map series_path s_hint fn
    else relocFiles season_map series_path s_hint rest

/-- The candidate-directory loop of `relocate_subtitles_in_show_root`. -/
def relocDirs (listing : Str → Option (List DirEntry))
    (series_path : Str) (season_map : List (Nat × Str)) :
    List (Option Nat × Str) → List (Nat × Str) × List FsOp × Bool
  | [] => (season_map, [], false)
  | (sh, sd) :: rest =>
    match listing sd with
    | none => relocDirs listing series_path season_map rest
    | some es =>
      match relocFiles season_map series_path sh
          ((es.filter (fun e => !e.isDir)).map (fun e => e.name)) with
      | (m2, calls, true) => (m2, calls, true)
      | (m2, calls, false) =>
        match relocDirs listing series_path m2 rest with
        | (m3, calls2, crashed) => (m3, calls ++ calls2, crashed)

/-- The root-entry loop of `relocate_subtitles_in_show_root`. -/
def relocEnts (listing : Str → Option (List DirEntry))
    (series_path : Str) (season_map : List (Nat × Str)) :
    List DirEntry → List (Nat × Str) × List FsOp × Bool
  | [] => (season_map, [], false)
  | ent :: rest =>
    if ent.isDir && is_subtitle_dir_name ent.name then
      match listing (join_path series_path ent.name) with
      | none => relocEnts listing series_path season_map rest
      | some sub_entries =>
        match relocDirs listing series_path season_map
            ((none, join_path series_path ent.name) ::
              sub_entries.filterMap (fun se =>
                if se.isDir then
                  (is_season_dir se.name).map (fun s =>
                    (some s, join_path (join_path series_path ent.name) se.name))
                else none)) with
        | (m2, calls, true) => (m2, calls, true)
        | (m2, calls, false) =>
          match relocEnts listing series_path m2 rest with
          | (m3, calls2, crashed) => (m3, calls ++ calls2, crashed)
    else relocEnts listing series_path season_map rest

/-- renamer.py `relocate_subtitles_in_show_root`, under the charitable
reading that the non-existent `client.listdir` method is the client's
`list_dir`.  The result is the list of mutating client calls made and
whether the run crashed; the `dry_run` flag is never consulted on this
path. -/
def relocate_subtitles_in_show_root (listing : Str → Option (List DirEntry))
    (series_path : Str) (_dry_run : Bool) : List FsOp × Bool :=
  match listing series_path with
  | none => ([], false)
  | some entries =>
    match relocEnts listing series_path
        (build_season_dir_map listing series_path) entries with
    | (_, calls, crashed) => (calls, crashed)

/-- The failing listing: a show root containing only a `字幕` subtitle folder
which holds one subtitle file, and no season folders. -/
def listing0 (p : Str) : Option (List DirEntry) :=
  if p = ("/show".data) then some [⟨("字幕".data), true⟩]
  else if p = ("/show/字幕".data) then
    some [⟨("x.S01E05.srt".data), false⟩]
  else none

/- ---------------------------------------------------------------------------
Claim C8: resume ledger (renamer.py lines 2034-2052 and 3200-3232).
--------------------------------------------------------------------------- -/

/-- One JSON line of the resume ledger (only the fields the code reads). -/
structure StateRec where
  series_path : Str
  status : Str
deriving DecidableEq

/-- renamer.py `load_state`: the set of normalized paths of records with
status `done` and a truthy `series_path`. -/
def load_state (recs : List StateRec) : List Str :=
  (recs.filter (fun r =>
    decide (r.status = ("done".data)) && decide (r.series_path ≠ []))).map
    (fun r => norm_path r.series_path)

/-- The per-series loop of renamer.py `main`: a series whose normalized path
is in the done-set is skipped, every other series is processed and a record
with its normalized path and a `done`/`error` status (per the abstract
outcome of `process_series_folder`) is appended to the ledger.  Returns the
processed paths and the appended records. -/
def runLoop (done : List Str) (outcome : Str → Bool) :
    List Str → List Str × List StateRec
  | [] => ([], [])
  | p :: rest =>
    if norm_path p ∈ done then runLoop done outcome rest
    else
      (p :: (runLoop done outcome rest).1,
       ⟨norm_path p,
        if outcome p then ("done".data) else ("error".data)⟩ ::
         (runLoop done outcome rest).2)

/- ---------------------------------------------------------------------------
Claim C7: undo replay (renamer.py lines 2068-2128), over a filesystem model.
--------------------------------------------------------------------------- -/

/-- An absolute path as a list of segments. -/
abbrev FsPath := List Str

/-- `p` lies in the subtree rooted at `pre` (or is `pre` itself). -/
def starts (pre p : FsPath) : Bool :=
  decide (p.take pre.length = pre)

/-- Rewrite one path under a simultaneous family of subtree moves: if some
pair's source prefix matches, re-root the path at that pair's destination. -/
def pmRewrite (pairs : List (FsPath × FsPath)) (p : FsPath) : FsPath :=
  match pairs.find? (fun q => starts q.1 p) with
  | some q => q.2 ++ p.drop q.1.length
  | none => p

/-- Modelled from the spec: preconditions under which the filesystem
collaborator's `rename`/`move` succeeds — every moved source exists, no
destination exists yet (no silent overwrite), no destination lies inside a
moved subtree, and distinct moved subtrees are not nested. -/
def pmOk (pairs : List (FsPath × FsPath)) (s : List FsPath) : Prop :=
  (∀ q ∈ pairs, ∃ p ∈ s, starts q.1 p = true) ∧
  (∀ q ∈ pairs, ∀ p ∈ s, starts q.2 p = false) ∧
  (∀ q ∈ pairs, ∀ r ∈ pairs, starts q.1 r.2 = false) ∧
  (∀ q ∈ pairs, ∀ r ∈ pairs, starts q.1 r.1 = true → q = r) ∧
  (∀ q ∈ pairs, ∀ r ∈ pairs, starts q.2 r.2 = true → q = r)

instance (pairs : List (FsPath × FsPath)) (s : List FsPath) :
    Decidable (pmOk pairs s) := by
  unfold pmOk
  infer_instance

/-- Modelled from the spec: the filesystem collaborator applies a family of
subtree moves atomically when the preconditions hold, and fails otherwise. -/
def applyPm (pairs : List (FsPath × FsPath)) (s : List FsPath) :
    Option (List FsPath) :=
  if pmOk pairs s then some (s.map (pmRewrite pairs)) else none

/-- An undo-ledger record: renames and moves, exactly the two operations
`apply_undo` replays. -/
inductive UOp where
  | rename (parent : FsPath) (old new : Str)
  | move (srcDir dstDir : FsPath) (names : List Str)
deriving DecidableEq

/-- The record inversion `apply_undo` performs: rename new→old, move
dst→src. -/
def invert : UOp → UOp
  | .rename parent old new => .rename parent new old
  | .move src dst names => .move dst src names

/-- The subtree moves an operation denotes on the filesystem model. -/
def opPairs : UOp → List (FsPath × FsPath)
  | .rename parent old new => [(parent ++ [old], parent ++ [new])]
  | .move src dst names => names.map (fun n => (src ++ [n], dst ++ [n]))

/-- Modelled from the spec: the effect of one collaborator call
(`rename(path, newName)` / `move(srcDir, dstDir, names)`) on the set of
absolute paths present in the remote tree. -/
def applyOp (op : UOp) (s : List FsPath) : Option (List FsPath) :=
  applyPm (opPairs op) s

/-- Sequential application of recorded operations. -/
def applyOps : List UOp → List FsPath → Option (List FsPath)
  | [], s => some s
  | op :: rest, s =>
    match applyOp op s with
    | some t => applyOps rest t
    | none => none

/- ---------------------------------------------------------------------------
Claim C6: the variety planner (renamer.py lines 804-955).
--------------------------------------------------------------------------- -/

/-- renamer.py `VIDEO_EXTS`. -/
def VIDEO_EXTS : List Str :=
  [(".mp4".data), (".mkv".data), (".avi".data), (".mov".data), (".wmv".data),
   (".flv".data), (".m4v".data), (".ts".data), (".m2ts".data), (".webm".data)]

/-- renamer.py `_SPECIAL_MARKERS`. -/
def SPECIAL_MARKERS : List Str :=
  [("抢先看".data), ("预告".data), ("先导".data), ("花絮".data), ("幕后".data),
   ("特辑".data), ("特别篇".data), ("番外".data), ("彩蛋".data), ("sp".data),
   ("special".data), ("pv".data), ("cm".data)]

/-- renamer.py `is_special_episode_name`. -/
def is_special_episode_name (name : Str) : Bool :=
  SPECIAL_MARKERS.any (fun m => containsSeq m (toLowerStr (to_halfwidth name)))

/-- Gregorian month length, as Python's `datetime.date` validates it. -/
def daysInMonth (y m : Nat) : Nat :=
  if m = 2 then
    if (y % 4 = 0 ∧ y % 100 ≠ 0) ∨ y % 400 = 0 then 29 else 28
  else if m = 1 ∨ m = 3 ∨ m = 5 ∨ m = 7 ∨ m = 8 ∨ m = 10 ∨ m = 12 then 31
  else if m = 4 ∨ m = 6 ∨ m = 9 ∨ m = 11 then 30
  else 0

/-- Python `date(y, mo, d)` constructor validation. -/
def validDate (y m d : Nat) : Bool :=
  decide (1 ≤ m) && decide (m ≤ 12) && decide (1 ≤ d) && decide (d ≤ daysInMonth y m)

/-- Boundary of the `(?!\d)` lookahead: end of string or a non-digit. -/
def boundaryNotDigit (l : Str) : Bool :=
  match l with
  | [] => true
  | x :: _ => !(x.isDigit)

/-- Matcher for `_DATE8_RE`
`(?<!\d)(20\d{2})(0[1-9]|1[0-2])(0[1-9]|[12]\d|3[01])(?!\d)` at one
position. -/
def date8Here (prevD : Bool) (l : Str) : Option (Nat × Nat × Nat) :=
  if prevD then none
  else
    match l with
    | c0 :: c1 :: y1 :: y2 :: m1 :: m2 :: d1 :: d2 :: rest =>
      if c0 = '2' ∧ c1 = '0' ∧ y1.isDigit ∧ y2.isDigit ∧ m2.isDigit ∧ d2.isDigit ∧
          ((m1 = '0' ∧ m2 ≠ '0') ∨ (m1 = '1' ∧ m2.toNat ≤ 50)) ∧
          ((d1 = '0' ∧ d2 ≠ '0') ∨ d1 = '1' ∨ d1 = '2' ∨ (d1 = '3' ∧ d2.toNat ≤ 49)) ∧
          boundaryNotDigit rest = true then
        some (2000 + 10 * (y1.toNat - 48) + (y2.toNat - 48),
          10 * (m1.toNat - 48) + (m2.toNat - 48),
          10 * (d1.toNat - 48) + (d2.toNat - 48))
      else none
    | _ => none

/-- A separator of `_DATE_SEP_RE` (`[.\-_]`). -/
def dateSep (c : Char) : Bool :=
  c == '.' || c == '-' || c == '_'

/-- Matcher for `_DATE_SEP_RE`
`(?<!\d)(20\d{2})[.\-_](\d{1,2})[.\-_](\d{1,2})(?!\d)` at one position. -/
def dateSepHere (prevD : Bool) (l : Str) : Option (Nat × Nat × Nat) :=
  if prevD then none
  else
    match l with
    | c0 :: c1 :: y1 :: y2 :: s1 :: r1 =>
      if c0 = '2' ∧ c1 = '0' ∧ y1.isDigit ∧ y2.isDigit ∧ dateSep s1 = true ∧
          1 ≤ (r1.takeWhile Char.isDigit).length ∧
          (r1.takeWhile Char.isDigit).length ≤ 2 then
        match r1.dropWhile Char.isDigit with
        | s2 :: r2 =>
          if dateSep s2 = true ∧ 1 ≤ (r2.takeWhile Char.isDigit).length ∧
              (r2.takeWhile Char.isDigit).length ≤ 2 then
            some (2000 + 10 * (y1.toNat - 48) + (y2.toNat - 48),
              digitsVal (r1.takeWhile Char.isDigit),
              digitsVal (r2.takeWhile Char.isDigit))
          else none
        | [] => none
      else none
    | _ => none

/-- Leftmost scan for `_DATE8_RE`, threading the previous-digit flag for the
`(?<!\d)` lookbehind. -/
def findDate8 : Str → Bool → Option (Nat × Nat × Nat)
  | [], _ => none
  | c :: rest, prevD =>
    match date8Here prevD (c :: rest) with
    | some v => some v
    | none => findDate8 rest c.isDigit

/-- Leftmost scan for `_DATE_SEP_RE`. -/
def findDateSep : Str → Bool → Option (Nat × Nat × Nat)
  | [], _ => none
  | c :: rest, prevD =>
    match dateSepHere prevD (c :: rest) with
    | some v => some v
    | none => findDateSep rest c.isDigit

/-- renamer.py `parse_date_key`. -/
def parse_date_key (text : Str) : Option Nat :=
  match findDate8 (to_halfwidth text) false with
  | some (y, m, d) =>
    if validDate y m d then some (y * 10000 + m * 100 + d) else none
  | none =>
    match findDateSep (to_halfwidth text) false with
    | some (y, m, d) =>
      if validDate y m d then some (y * 10000 + m * 100 + d) else none
    | none => none

/-- renamer.py `_PART_ORDER`, in insertion order. -/
def PART_ORDER : List (Str × Nat) :=
  [(("上".data), 1), (("上集".data), 1), (("上期".data), 1), (("前".data), 1),
   (("中".data), 2), (("中集".data), 2), (("中期".data), 2),
   (("下".data), 3), (("下集".data), 3), (("下期".data), 3), (("后".data), 2)]

/-- Matcher for `_QISHU_RE` `第\s*([一二三四五六七八九十\d]{1,4})\s*期` at one
position; returns the captured group and the text after the match. -/
def qishuHere (l : Str) : Option (Str × Str) :=
  match l with
  | c :: rest =>
    if c = '第' then
      if 1 ≤ ((rest.dropWhile pySpace).takeWhile cnClass).length ∧
          ((rest.dropWhile pySpace).takeWhile cnClass).length ≤ 4 then
        match ((rest.dropWhile pySpace).dropWhile cnClass).dropWhile pySpace with
        | m :: tail =>
          if m = '期' then
            some ((rest.dropWhile pySpace).takeWhile cnClass, tail)
          else none
        | [] => none
      else none
    else none
  | [] => none

/-- Leftmost scan for `_QISHU_RE`. -/
def findQishu : Str → Option (Str × Str)
  | [] => none
  | c :: rest =>
    match qishuHere (c :: rest) with
    | some v => some v
    | none => findQishu rest

/-- renamer.py `parse_qishu_and_part`: parse `第X期` plus an 上/中/下 part
marker in the eight characters after the match. -/
def parse_qishu_and_part (text : Str) : Option Nat × Nat :=
  match findQishu (to_halfwidth text) with
  | none => (none, 0)
  | some (grp, tail) =>
    (chinese_to_int grp,
     match PART_ORDER.find? (fun p => containsSeq p.1 (tail.take 8)) with
     | some p => p.2
     | none => 0)

/-- The sort key the planner builds: a `(dateKey, normalizedName)` pair for
specials, a `(qishu, partRank, dateKey, normalizedName)` tuple otherwise. -/
inductive SKey where
  | sp (d : Nat) (n : Str)
  | reg (q pr d : Nat) (n : Str)
deriving DecidableEq

/-- Python string comparison (lexicographic by code point). -/
def strLtB : Str → Str → Bool
  | [], [] => false
  | [], _ :: _ => true
  | _ :: _, [] => false
  | a :: as2, b :: bs =>
    if a.toNat < b.toNat then true
    else if b.toNat < a.toNat then false
    else strLtB as2 bs

/-- Python tuple comparison on sort keys (the two shapes never mix in one
bucket unless the season-0 bucket also receives regular candidates, where
Python would raise; the model orders specials first). -/
def skLe (k1 k2 : SKey) : Bool :=
  match k1, k2 with
  | .sp d1 n1, .sp d2 n2 =>
    decide (d1 < d2) || (decide (d1 = d2) && !(strLtB n2 n1))
  | .reg q1 p1 d1 n1, .reg q2 p2 d2 n2 =>
    decide (q1 < q2) || (decide (q1 = q2) &&
      (decide (p1 < p2) || (decide (p1 = p2) &&
        (decide (d1 < d2) || (decide (d1 = d2) && !(strLtB n2 n1))))))
  | .sp _ _, .reg _ _ _ _ => true
  | .reg _ _ _ _, .sp _ _ => false

/-- A planner candidate: sort key, scan directory, file name, special flag. -/
abbrev Cand := SKey × Str × Str × Bool

/-- Candidate comparison by sort key only (`key=lambda x: x[0]`). -/
def candLe (c1 c2 : Cand) : Bool :=
  skLe c1.1 c2.1

/-- Stable insertion into a sorted list (ties keep the earlier element
first), modelling Python's stable `sort`. -/
def insertSorted (le : Cand → Cand → Bool) (x : Cand) : List Cand → List Cand
  | [] => [x]
  | y :: ys => if le y x then y :: insertSorted le x ys else x :: y :: ys

/-- Stable sort by repeated insertion. -/
def isort (le : Cand → Cand → Bool) (l : List Cand) : List Cand :=
  l.foldl (fun acc x => insertSorted le x acc) []

/-- Bucket append with Python dict-of-lists semantics
(`m.setdefault(k, []).append(v)`). -/
def bAdd {α : Type} (m : List (Nat × List α)) (k : Nat) (v : α) :
    List (Nat × List α) :=
  if m.any (fun p => p.1 == k) then
    m.map (fun p => if p.1 == k then (p.1, p.2 ++ [v]) else p)
  else m ++ [(k, [v])]

/-- Bucket lookup with empty default (`m.get(k, [])` / `m.get(k, set())`). -/
def bGet {α : Type} (m : List (Nat × List α)) (k : Nat) : List α :=
  match m.find? (fun p => p.1 == k) with
  | some p => p.2
  | none => []

/-- The season hint of one scan directory:
`incoming.get(dir) or parse_season_from_text(basename)` (a zero hint is
falsy in Python and falls through to the parse). -/
def scanHint (hints : List (Str × Nat)) (dir base : Str) : Option Nat :=
  match (hints.find? (fun p => decide (p.1 = dir))).map (fun p => p.2) with
  | some 0 => parse_season_from_text base
  | some h => some h
  | none => parse_season_from_text base

/-- The candidate-gathering step of `infer_variety_and_special_episodes` for
one directory entry: files with a parsed episode number feed the used-set of
the scan season; files with a date or `第X期` marker become candidates
(specials in season 0). -/
def gatherEntry (base dir : Str) (sg : Nat)
    (st : List (Nat × List Cand) × List (Nat × List Nat)) (ent : DirEntry) :
    List (Nat × List Cand) × List (Nat × List Nat) :=
  if ent.isDir then st
  else if toLowerStr (splitext ent.name).2 ∈ VIDEO_EXTS then
    match (parse_episode_from_name ent.name).2.1 with
    | some e => (st.1, bAdd st.2 sg e)
    | none =>
      if (parse_qishu_and_part ent.name).1 = none ∧
          parse_date_key ent.name = none then st
      else if is_special_episode_name ent.name ||
          is_special_episode_name base then
        (bAdd st.1 0
          (SKey.sp ((parse_date_key ent.name).getD 99999999)
            (toLowerStr (normalize_spaces (to_halfwidth ent.name))),
           dir, ent.name, true), st.2)
      else
        (bAdd st.1 sg
          (SKey.reg ((parse_qishu_and_part ent.name).1.getD 9999)
            (parse_qishu_and_part ent.name).2
            ((parse_date_key ent.name).getD 99999999)
            (toLowerStr (normalize_spaces (to_halfwidth ent.name))),
           dir, ent.name, false), st.2)
  else st

/-- Candidate gathering over one scan directory. -/
def gatherDir (listing : Str → List DirEntry) (hints : List (Str × Nat))
    (defaultSeason : Nat)
    (st : List (Nat × List Cand) × List (Nat × List Nat)) (dir : Str) :
    List (Nat × List Cand) × List (Nat × List Nat) :=
  (listing dir).foldl
    (gatherEntry (strip (basename dir)) dir
      (match scanHint hints dir (strip (basename dir)) with
       | some h => h
       | none => defaultSeason)) st

/-- Candidate gathering over all scan directories: returns the per-season
candidate buckets and the per-season sets of already-used episode
numbers. -/
def gather (listing : Str → List DirEntry) (dirs : List Str)
    (hints : List (Str × Nat)) (defaultSeason : Nat) :
    List (Nat × List Cand) × List (Nat × List Nat) :=
  dirs.foldl (gatherDir listing hints defaultSeason) ([], [])

/-- `while next_ep in used: next_ep += 1`, with enough fuel to clear the
used-set. -/
def firstFree (used : List Nat) (n : Nat) : Nat → Nat
  | 0 => n
  | fuel + 1 => if n ∈ used then firstFree used (n + 1) fuel else n

/-- The per-season assignment loop: each candidate in order receives the
first episode number that is neither in the season's used-set nor already
assigned. -/
def assignSeason (season : Nat) :
    List Nat → Nat → List Cand → List ((Str × Str) × (Nat × Nat × Bool))
  | _, _, [] => []
  | used, next, c :: rest =>
    ((c.2.1, c.2.2.1),
      (season, firstFree used next (used.length + 1), c.2.2.2)) ::
      assignSeason season (firstFree used next (used.length + 1) :: used)
        (firstFree used next (used.length + 1) + 1) rest

/-- renamer.py `infer_variety_and_special_episodes`, with the client
modelled as a listing function. -/
def infer_variety_and_special_episodes (listing : Str → List DirEntry)
    (dirs : List Str) (hints : List (Str × Nat)) (defaultSeason : Nat) :
    List ((Str × Str) × (Nat × Nat × Bool)) :=
  ((gather listing dirs hints defaultSeason).1).flatMap
    (fun b =>
      assignSeason b.1 (bGet (gather listing dirs hints defaultSeason).2 b.1) 1
        (isort candLe b.2))

/-- The first-fit specification: each successive number is the least one
at or above the cursor that is not yet used, and is then itself marked
used. -/
def FirstFit : List Nat → Nat → List Nat → Prop
  | _, _, [] => True
  | used, next, e :: rest =>
    e ∉ used ∧ next ≤ e ∧ (∀ m, next ≤ m → m < e → m ∈ used) ∧
    FirstFit (e :: used) (e + 1) rest

theorem head_dropLast_cons (a : Char) (l : List Char) (h : l ≠ []) :
    ((a :: l).dropLast).head? = some a := by
  cases l with
  | nil => exact absurd rfl h
  | cons b t => simp [List.dropLast]

theorem normLead_head (q : Str) : (normLead q).head? = some '/' := by
  unfold normLead
  split
  · assumption
  · rfl

theorem normTrail_head (q : Str) (h : q.head? = some '/') :
    (normTrail q).head? = some '/' := by
  unfold normTrail
  split
  · rename_i h3
    rcases q with _ | ⟨a, l⟩
    · simp at h
    · have ha : a = '/' := by simpa using h
      subst ha
      rcases l with _ | ⟨b, t⟩
      · exact absurd rfl h3.1
      · exact head_dropLast_cons _ _ (by simp)
  · exact h

theorem norm_path_head (p : Str) : (norm_path p).head? = some '/' := by
  unfold norm_path
  split
  · rfl
  · exact normTrail_head _ (normLead_head _)

theorem endsTwoSlash_cons_slash (q : Str) (hne : q ≠ [])
    (hh : q.head? ≠ some '/') (h : endsTwoSlash q = false) :
    endsTwoSlash ('/' :: q) = false := by
  rcases hq : q.reverse with _ | ⟨c, t⟩
  · exact absurd (by simpa using congrArg List.reverse hq) hne
  · rcases t with _ | ⟨d, t2⟩
    · have hq2 : q = [c] := by simpa using congrArg List.reverse hq
      subst hq2
      have hc : c ≠ '/' := fun hcc => hh (by simp [hcc])
      have hrev : ('/' :: [c]).reverse = [c, '/'] := by simp
      unfold endsTwoSlash
      rw [hrev]
      simpa using hc
    · have hrev : ('/' :: q).reverse = c :: d :: (t2 ++ ['/']) := by
        rw [List.reverse_cons, hq]; simp
      unfold endsTwoSlash at h ⊢
      rw [hrev]
      rw [hq] at h
      exact h

theorem getLast_ne_of_not_endsTwoSlash (r : Str) (hr : endsTwoSlash r = false)
    (hlast : r.getLast? = some '/') (hne : r ≠ ['/']) :
    r.dropLast.getLast? ≠ some '/' := by
  rcases r.eq_nil_or_concat with h | ⟨l, a, h⟩
  · subst h; simp at hlast
  · subst h
    have ha : a = '/' := by simpa using hlast
    subst ha
    rcases l.eq_nil_or_concat with h2 | ⟨l2, b, h2⟩
    · subst h2; exact absurd rfl hne
    · subst h2
      simp only [List.concat_eq_append] at hr hlast hne ⊢
      have hb : b ≠ '/' := by
        intro hb
        subst hb
        unfold endsTwoSlash at hr
        simp [List.reverse_append] at hr
      rw [show (l2 ++ [b] ++ ['/']).dropLast = l2 ++ [b] from by simp]
      simpa using hb

theorem normTrail_no_trailing (q : Str) (h : endsTwoSlash q = false) :
    normTrail q = ['/'] ∨ (normTrail q).getLast? ≠ some '/' := by
  unfold normTrail
  split
  · rename_i h3
    right
    exact getLast_ne_of_not_endsTwoSlash _ h h3.2 h3.1
  · rename_i h3
    rw [not_and_or] at h3
    rcases h3 with h3 | h3
    · left; simpa using h3
    · right; exact h3

theorem norm_path_no_trailing (p : Str) (h : endsTwoSlash (replBS p) = false) :
    norm_path p = ['/'] ∨ (norm_path p).getLast? ≠ some '/' := by
  unfold norm_path
  by_cases hp : p = []
  · left; simp [hp]
  · rw [if_neg hp]
    have hq : replBS p ≠ [] := by
      intro hq
      exact hp (by simpa [replBS] using congrArg List.length hq)
    unfold normLead
    by_cases h2 : (replBS p).head? = some '/'
    · rw [if_pos h2]
      exact normTrail_no_trailing _ h
    · rw [if_neg h2]
      exact normTrail_no_trailing _ (endsTwoSlash_cons_slash _ hq h2 h)

theorem norm_path_no_bs (p : Str) : '\\' ∉ norm_path p := by
  have hbs : '\\' ∉ replBS p := by
    simp only [replBS, List.mem_map, not_exists]
    rintro c ⟨_, hc⟩
    by_cases h : c = '\\' <;> simp [h] at hc
  have hlead : '\\' ∉ normLead (replBS p) := by
    unfold normLead
    split
    · exact hbs
    · intro hm
      rcases List.mem_cons.mp hm with h | h
      · exact absurd h (by decide)
      · exact hbs h
  unfold norm_path
  split
  · decide
  · unfold normTrail
    split
    · intro hm; exact hlead (List.dropLast_subset _ hm)
    · exact hlead

theorem replBS_id (l : Str) (h : '\\' ∉ l) : replBS l = l := by
  induction l with
  | nil => rfl
  | cons c t ih =>
    have hc : c ≠ '\\' := fun e => h (by simp [e])
    have ht : replBS t = t := ih (fun m => h (List.mem_cons_of_mem _ m))
    simp only [replBS, List.map_cons] at ht ⊢
    rw [ht, if_neg (by simpa using hc)]

theorem norm_path_fix (l : Str) (hh : l.head? = some '/') (hb : '\\' ∉ l)
    (ht : l.getLast? ≠ some '/') : norm_path l = l := by
  have hne : l ≠ [] := by intro e; rw [e] at hh; simp at hh
  unfold norm_path normLead normTrail
  rw [if_neg hne, replBS_id l hb, if_pos hh, if_neg]
  intro hand
  exact ht hand.2

theorem takeWhile_append_stop (p : Char → Bool) (a : List Char) (c : Char)
    (t : List Char) (ha : ∀ x ∈ a, p x = true) (hc : p c = false) :
    (a ++ c :: t).takeWhile p = a := by
  induction a with
  | nil => simp [List.takeWhile, hc]
  | cons x xs ih =>
    have hx : p x = true := ha x (by simp)
    simp only [List.cons_append, List.takeWhile_cons, hx, if_true]
    rw [ih (fun y m => ha y (List.mem_cons_of_mem _ m))]

theorem dropWhile_append_stop (p : Char → Bool) (a : List Char) (c : Char)
    (t : List Char) (ha : ∀ x ∈ a, p x = true) (hc : p c = false) :
    (a ++ c :: t).dropWhile p = c :: t := by
  induction a with
  | nil => simp [List.dropWhile, hc]
  | cons x xs ih =>
    have hx : p x = true := ha x (by simp)
    simp only [List.cons_append, List.dropWhile_cons, hx, if_true]
    exact ih (fun y m => ha y (List.mem_cons_of_mem _ m))

theorem getLast_snoc (l : List Char) (x : Char) : (l ++ [x]).getLast? = some x := by
  simp

theorem getLast_append_cons (D : Str) (c : Char) (n : Str) (hn : n ≠ []) :
    (D ++ c :: n).getLast? = n.getLast? := by
  rcases n.eq_nil_or_concat with h | ⟨m, x, h⟩
  · exact absurd h hn
  · subst h
    simp only [List.concat_eq_append]
    rw [show D ++ c :: (m ++ [x]) = (D ++ c :: m) ++ [x] from by simp]
    rw [getLast_snoc, getLast_snoc]

theorem rsplitSlash_of_clean (D n : Str) (h1 : '/' ∉ n) :
    rsplitSlash (D ++ '/' :: n) = (D, n) := by
  have hall : ∀ x ∈ n.reverse, (!(x == '/')) = true := by
    intro x m
    have hx : x ≠ '/' := fun e => h1 (e ▸ (List.mem_reverse.mp m))
    simpa using hx
  have hrev : (D ++ '/' :: n).reverse = n.reverse ++ '/' :: D.reverse := by
    simp
  unfold rsplitSlash
  rw [hrev, takeWhile_append_stop _ _ _ _ hall (by simp),
    dropWhile_append_stop _ _ _ _ hall (by simp)]
  simp

theorem split_join (d n : Str) (hn : n ≠ []) (h1 : '/' ∉ n) (h2 : '\\' ∉ n) :
    split_path (join_path d n) = (norm_path d, n) := by
  have hlast : n.getLast? ≠ some '/' := by
    intro he
    rcases n.eq_nil_or_concat with h | ⟨m, x, h⟩
    · exact hn h
    · subst h
      simp only [List.concat_eq_append] at he h1
      rw [show (m ++ [x]).getLast? = some x from by simp] at he
      exact h1 (by simp [Option.some_inj.mp he])
  by_cases hD : norm_path d = ['/']
  · have hj : join_path d n = '/' :: n := by
      unfold join_path; rw [if_pos hD]
    have hfix : norm_path ('/' :: n) = '/' :: n := by
      apply norm_path_fix
      · rfl
      · intro m
        rcases List.mem_cons.mp m with h | h
        · exact absurd h (by decide)
        · exact h2 h
      · have h3 := getLast_append_cons [] '/' n hn
        simp only [List.nil_append] at h3
        rw [h3]; exact hlast
    have hsplit := rsplitSlash_of_clean [] n h1
    simp only [List.nil_append] at hsplit
    rw [hj]
    unfold split_path
    rw [hfix, if_neg, if_pos]
    · rw [hD, hsplit]
    · rw [hsplit]
    · intro e
      have := congrArg List.length e
      simp at this
      exact hn this
  · have hj : join_path d n = norm_path d ++ '/' :: n := by
      unfold join_path; rw [if_neg hD]
    have hhead := norm_path_head d
    have hDne : norm_path d ≠ [] := by
      intro e; rw [e] at hhead; simp at hhead
    have hfix : norm_path (norm_path d ++ '/' :: n) = norm_path d ++ '/' :: n := by
      apply norm_path_fix
      · rcases hnd : norm_path d with _ | ⟨a, t⟩
        · exact absurd hnd hDne
        · rw [hnd] at hhead; simpa using hhead
      · intro m
        rcases List.mem_append.mp m with h | h
        · exact norm_path_no_bs d h
        · rcases List.mem_cons.mp h with h | h
          · exact absurd h (by decide)
          · exact h2 h
      · rw [getLast_append_cons _ _ _ hn]
        exact hlast
    have hsplit := rsplitSlash_of_clean (norm_path d) n h1
    rw [hj]
    unfold split_path
    rw [hfix, if_neg, if_neg]
    · rw [hsplit]
    · rw [hsplit]; simpa using hDne
    · intro e
      have hlen := congrArg List.length e
      simp only [List.length_append, List.length_cons] at hlen
      have hd1 : (norm_path d).length ≠ 0 := by
        simpa using hDne
      have hn1 : n.length ≠ 0 := by
        simpa using hn
      simp at hlen
      omega

/-- C10 counterexample: `norm_path` applied to a path ending in a double slash
keeps a trailing slash while not being the root, and the split/join roundtrip
fails for a name containing a backslash (which `norm_path` rewrites to a
slash), so the claimed path-algebra invariant is false as stated. -/
theorem c10_counterexample :
    norm_path ("a//".data) = ("/a/".data) ∧
    (norm_path ("a//".data)).getLast? = some '/' ∧
    norm_path ("a//".data) ≠ ['/'] ∧
    split_path (join_path ("/d".data) ("a\\b".data)) ≠
      (norm_path ("/d".data), ("a\\b".data)) := by
  refine ⟨by decide, by decide, by decide, by decide⟩

/-- C10 (amended): every `norm_path` result starts with a slash; the result
has no trailing slash (unless it is exactly the root) provided the
backslash-normalised input does not end in a double slash; and
`split_path (join_path d n) = (norm_path d, n)` for every non-empty name `n`
containing neither a slash nor a backslash. -/
theorem c10_path_algebra :
    (∀ p : Str, (norm_path p).head? = some '/') ∧
    (∀ p : Str, endsTwoSlash (replBS p) = false →
      norm_path p = ['/'] ∨ (norm_path p).getLast? ≠ some '/') ∧
    (∀ d n : Str, n ≠ [] → '/' ∉ n → '\\' ∉ n →
      split_path (join_path d n) = (norm_path d, n)) :=
  ⟨norm_path_head, norm_path_no_trailing, split_join⟩

/-- C10 witness: the amended path-algebra invariant evaluated at concrete
inputs. -/
theorem c10_path_algebra_witness :
    (norm_path ("shows/".data) = ['/'] ∨
      (norm_path ("shows/".data)).getLast? ≠ some '/') ∧
    split_path (join_path ("/lib/shows".data) ("Ep01.mkv".data)) =
      (norm_path ("/lib/shows".data), ("Ep01.mkv".data)) := by
  constructor
  · exact c10_path_algebra.2.1 ("shows/".data) (by decide)
  · exact c10_path_algebra.2.2 ("/lib/shows".data) ("Ep01.mkv".data)
      (by decide) (by decide) (by decide)

theorem lev_nil_left (ys : Str) : lev [] ys = ys.length := by simp only [lev]

theorem lev_nil_right (xs : Str) : lev xs [] = xs.length := by
  cases xs <;> simp [lev]

theorem lev_cons_cons (x : Char) (xs : Str) (y : Char) (ys : Str) :
    lev (x :: xs) (y :: ys) =
      min (min (lev xs ys + levCost x y) (lev xs (y :: ys) + 1))
        (lev (x :: xs) ys + 1) := by
  simp only [lev]

theorem lev_snoc_aux (n : Nat) : ∀ (xs ys : Str), xs.length + ys.length ≤ n →
    ∀ (x y : Char),
    lev (xs ++ [x]) (ys ++ [y]) =
      min (min (lev xs ys + levCost x y) (lev xs (ys ++ [y]) + 1))
        (lev (xs ++ [x]) ys + 1) := by
  induction n with
  | zero =>
    intro xs ys h x y
    have hx : xs = [] := List.length_eq_zero.mp (by omega)
    have hy : ys = [] := List.length_eq_zero.mp (by omega)
    subst hx; subst hy
    simp only [List.nil_append, lev_cons_cons]
  | succ n ih =>
    intro xs ys h x y
    cases xs with
    | nil =>
      cases ys with
      | nil => simp only [List.nil_append, lev_cons_cons]
      | cons v vs =>
        have t1 := ih [] vs (by simp at h ⊢; omega) x y
        simp only [List.nil_append] at t1
        simp only [List.nil_append, List.cons_append, lev_cons_cons,
          lev_nil_left, List.length_append, List.length_cons,
          List.length_nil] at t1 ⊢
        omega
    | cons u us =>
      cases ys with
      | nil =>
        have t1 := ih us [] (by simp at h ⊢; omega) x y
        simp only [List.nil_append] at t1
        simp only [List.nil_append, List.cons_append, lev_cons_cons,
          lev_nil_right, List.length_append, List.length_cons,
          List.length_nil] at t1 ⊢
        omega
      | cons v vs =>
        have t1 := ih us vs (by simp at h ⊢; omega) x y
        have t2 := ih us (v :: vs) (by simp at h ⊢; omega) x y
        have t3 := ih (u :: us) vs (by simp at h ⊢; omega) x y
        simp only [List.cons_append, lev_cons_cons] at t1 t2 t3 ⊢
        rw [t1, t2, t3]
        generalize lev us vs = a1
        generalize lev us (v :: vs) = a2
        generalize lev (u :: us) vs = a3
        generalize lev us (vs ++ [y]) = a4
        generalize lev us (v :: (vs ++ [y])) = a5
        generalize lev (u :: us) (vs ++ [y]) = a6
        generalize lev (us ++ [x]) vs = a7
        generalize lev (us ++ [x]) (v :: vs) = a8
        generalize lev (u :: (us ++ [x])) vs = a9
        generalize levCost x y = c1
        generalize levCost u v = c2
        simp only [← min_add_add_right]
        apply Nat.le_antisymm
        · simp only [le_min_iff, min_le_iff]
          omega
        · simp only [le_min_iff, min_le_iff]
          omega

theorem lev_snoc_snoc (xs ys : Str) (x y : Char) :
    lev (xs ++ [x]) (ys ++ [y]) =
      min (min (lev xs ys + levCost x y) (lev xs (ys ++ [y]) + 1))
        (lev (xs ++ [x]) ys + 1) :=
  lev_snoc_aux (xs.length + ys.length) xs ys le_rfl x y

theorem rowGo_spec (x : Char) (ws : Str) : ∀ (ys pre : Str),
    rowGo x (lev ws pre) (lev (ws ++ [x]) pre) (levRow ws pre ys) ys =
      levRow (ws ++ [x]) pre ys := by
  intro ys
  induction ys with
  | nil => intro pre; rfl
  | cons y ys ih =>
    intro pre
    show rowGo x (lev ws pre) (lev (ws ++ [x]) pre)
        (lev ws (pre ++ [y]) :: levRow ws (pre ++ [y]) ys) (y :: ys) =
      lev (ws ++ [x]) (pre ++ [y]) :: levRow (ws ++ [x]) (pre ++ [y]) ys
    have hv : min (min (lev ws (pre ++ [y]) + 1) (lev (ws ++ [x]) pre + 1))
        (lev ws pre + levCost x y) = lev (ws ++ [x]) (pre ++ [y]) := by
      rw [lev_snoc_snoc]
      generalize lev ws pre = d1
      generalize lev ws (pre ++ [y]) = d2
      generalize lev (ws ++ [x]) pre = d3
      generalize levCost x y = c1
      omega
    rw [rowGo, hv]
    exact congrArg _ (ih (pre ++ [y]))

theorem lev_snoc_nil (ws : Str) (x : Char) :
    lev (ws ++ [x]) [] = lev ws [] + 1 := by
  rw [lev_nil_right, lev_nil_right]
  simp

theorem rowStep_spec (b ws : Str) (x : Char) :
    rowStep b (lev ws [] :: levRow ws [] b) x =
      lev (ws ++ [x]) [] :: levRow (ws ++ [x]) [] b := by
  show (lev ws [] + 1) :: rowGo x (lev ws []) (lev ws [] + 1) (levRow ws [] b) b =
    lev (ws ++ [x]) [] :: levRow (ws ++ [x]) [] b
  rw [← lev_snoc_nil ws x, rowGo_spec]

theorem fold_spec (b : Str) : ∀ (xs ws : Str),
    xs.foldl (rowStep b) (lev ws [] :: levRow ws [] b) =
      lev (ws ++ xs) [] :: levRow (ws ++ xs) [] b := by
  intro xs
  induction xs with
  | nil => intro ws; simp
  | cons x xs ih =>
    intro ws
    rw [List.foldl_cons, rowStep_spec, ih (ws ++ [x])]
    simp

theorem levRow_nil_ws : ∀ (ys pre : Str),
    levRow [] pre ys = (List.range ys.length).map (fun k => pre.length + 1 + k) := by
  intro ys
  induction ys with
  | nil => intro pre; rfl
  | cons y ys ih =>
    intro pre
    show lev [] (pre ++ [y]) :: levRow [] (pre ++ [y]) ys = _
    rw [lev_nil_left, ih (pre ++ [y])]
    simp only [List.length_append, List.length_cons, List.length_nil,
      List.range_succ_eq_map, List.map_cons, List.map_map]
    refine congrArg₂ List.cons (by omega) ?_
    apply List.map_congr_left
    intro k _
    simp only [Function.comp_apply]
    omega

theorem init_row (b : Str) :
    List.range (b.length + 1) = lev [] [] :: levRow [] [] b := by
  rw [levRow_nil_ws b [], List.range_succ_eq_map]
  refine congrArg₂ List.cons (by simp [lev_nil_left]) ?_
  apply List.map_congr_left
  intro k _
  simp
  omega

theorem levRow_getLastD (ws : Str) : ∀ (ys pre : Str) (d : Nat),
    (lev ws pre :: levRow ws pre ys).getLastD d = lev ws (pre ++ ys) := by
  intro ys
  induction ys with
  | nil => intro pre d; simp [levRow]
  | cons y ys ih =>
    intro pre d
    show (lev ws pre :: lev ws (pre ++ [y]) :: levRow ws (pre ++ [y]) ys).getLastD d = _
    rw [List.getLastD_cons, ih (pre ++ [y]) (lev ws pre)]
    simp

theorem pyLevDist_eq (a b : Str) : pyLevDist a b = lev a b := by
  unfold pyLevDist
  rw [init_row b, fold_spec b a []]
  simp only [List.nil_append]
  rw [levRow_getLastD a b [] 0]
  simp

theorem lev_le_max (xs ys : Str) : lev xs ys ≤ max xs.length ys.length := by
  induction xs, ys using lev.induct with
  | case1 ys => simp [lev_nil_left]
  | case2 x xs => simp [lev_nil_right]
  | case3 x xs y ys ih1 ih2 ih3 =>
    rw [lev_cons_cons]
    have hc : levCost x y ≤ 1 := by unfold levCost; split <;> omega
    simp only [List.length_cons]
    omega

theorem lowerStr_length (l : Str) : (lowerStr l).length = l.length := by
  simp [lowerStr]

theorem c9_similarity (a b : Str) :
    levenshtein_ratio a b =
      1 - (lev (lowerStr a) (lowerStr b) : ℚ) / ((max a.length b.length : Nat) : ℚ) ∧
    0 ≤ levenshtein_ratio a b ∧ levenshtein_ratio a b ≤ 1 := by
  have hla : (lowerStr a).length = a.length := lowerStr_length a
  have hlb : (lowerStr b).length = b.length := lowerStr_length b
  unfold levenshtein_ratio
  by_cases h1 : lowerStr a = [] ∧ lowerStr b = []
  · rw [if_pos h1]
    have ha : a.length = 0 := by rw [← hla, h1.1]; rfl
    have hb : b.length = 0 := by rw [← hlb, h1.2]; rfl
    rw [h1.1, h1.2, lev_nil_left]
    simp [ha, hb]
  · rw [if_neg h1]
    by_cases h2 : lowerStr a = [] ∨ lowerStr b = []
    · rw [if_pos h2]
      rcases h2 with h2 | h2
      · have hbne : lowerStr b ≠ [] := fun hb => h1 ⟨h2, hb⟩
        have ha : a.length = 0 := by rw [← hla, h2]; rfl
        have hb : b.length ≠ 0 := by rw [← hlb]; simpa using hbne
        rw [h2, lev_nil_left, hlb]
        rw [show max a.length b.length = b.length from by omega]
        rw [div_self (by exact_mod_cast hb)]
        norm_num
      · have hane : lowerStr a ≠ [] := fun ha => h1 ⟨ha, h2⟩
        have hb : b.length = 0 := by rw [← hlb, h2]; rfl
        have ha : a.length ≠ 0 := by rw [← hla]; simpa using hane
        rw [h2, lev_nil_right, hla]
        rw [show max a.length b.length = a.length from by omega]
        rw [div_self (by exact_mod_cast ha)]
        norm_num
    · rw [if_neg h2]
      push_neg at h2
      have ha : a.length ≠ 0 := by rw [← hla]; simpa using h2.1
      have hb : b.length ≠ 0 := by rw [← hlb]; simpa using h2.2
      rw [pyLevDist_eq, hla, hlb]
      have hM : (0 : ℚ) < ((max a.length b.length : Nat) : ℚ) := by
        have : 0 < max a.length b.length := by omega
        exact_mod_cast this
      have hdle : lev (lowerStr a) (lowerStr b) ≤ max a.length b.length := by
        have h3 := lev_le_max (lowerStr a) (lowerStr b)
        rwa [hla, hlb] at h3
      refine ⟨rfl, ?_, ?_⟩
      · rw [sub_nonneg, div_le_one hM]
        exact_mod_cast hdle
      · have h0 : (0 : ℚ) ≤ (lev (lowerStr a) (lowerStr b) : ℚ) / ((max a.length b.length : Nat) : ℚ) := by
          positivity
        linarith

theorem levenshtein_nil_eq (ys : Str) :
    levenshtein Levenshtein.defaultCost [] ys = ys.length := by
  induction ys with
  | nil => simp [levenshtein_nil_nil]
  | cons y ys ih =>
    rw [levenshtein_nil_cons, ih]
    simp
    omega

theorem levenshtein_nil_right_eq (xs : Str) :
    levenshtein Levenshtein.defaultCost xs [] = xs.length := by
  induction xs with
  | nil => simp [levenshtein_nil_nil]
  | cons x xs ih =>
    rw [levenshtein_cons_nil, ih]
    simp
    omega

theorem lev_eq_levenshtein (xs ys : Str) :
    lev xs ys = levenshtein Levenshtein.defaultCost xs ys := by
  induction xs, ys using lev.induct with
  | case1 ys => rw [lev_nil_left, levenshtein_nil_eq]
  | case2 x xs => rw [lev_nil_right, levenshtein_nil_right_eq]
  | case3 x xs y ys ih1 ih2 ih3 =>
    rw [lev_cons_cons, levenshtein_cons_cons, ih1, ih2, ih3]
    simp only [Levenshtein.defaultCost_delete, Levenshtein.defaultCost_insert,
      Levenshtein.defaultCost_substitute, levCost]
    by_cases hxy : x = y <;> simp [hxy] <;> omega

/- ---------------------------------------------------------------------------
Character-class facts used to relate the scanners to declarative pattern
matches.
--------------------------------------------------------------------------- -/

theorem char_toNat_inj (c d : Char) (h : c.toNat = d.toNat) : c = d := by
  have h1 := Char.ofNat_toNat c
  rw [h, Char.ofNat_toNat] at h1
  exact h1.symm

theorem ciEq_elim (c a A : Char) (hA : A.toNat + 32 = a.toNat)
    (h : ciEq c a = true) : c = a ∨ c = A := by
  simp only [ciEq, Bool.or_eq_true, beq_iff_eq] at h
  rcases h with h | h
  · left; exact h
  · right
    exact char_toNat_inj c A (by omega)

theorem ciEq_s_elim (c : Char) (h : ciEq c 's' = true) : c = 's' ∨ c = 'S' :=
  ciEq_elim c 's' 'S' (by decide) h

theorem ciEq_e_elim (c : Char) (h : ciEq c 'e' = true) : c = 'e' ∨ c = 'E' :=
  ciEq_elim c 'e' 'E' (by decide) h

theorem isDigit_toNat (c : Char) (h : c.isDigit = true) :
    48 ≤ c.toNat ∧ c.toNat ≤ 57 := by
  simp [Char.isDigit] at h
  exact ⟨h.1, h.2⟩

theorem pySpace_not_digit (c : Char) (h : pySpace c = true) :
    c.isDigit = false := by
  cases hd : c.isDigit with
  | false => rfl
  | true =>
    exfalso
    have hb := isDigit_toNat c hd
    simp only [pySpace, Bool.or_eq_true, Bool.and_eq_true, beq_iff_eq,
      decide_eq_true_eq] at h
    omega

theorem digit_not_pySpace (c : Char) (h : c.isDigit = true) :
    pySpace c = false := by
  cases hp : pySpace c with
  | false => rfl
  | true =>
    rw [pySpace_not_digit c hp] at h
    exact Bool.noConfusion h

/- ---------------------------------------------------------------------------
takeWhile/dropWhile over appends with a fully-satisfying left part.
--------------------------------------------------------------------------- -/

theorem takeWhile_append_sat (p : Char → Bool) (a b : List Char)
    (ha : ∀ x ∈ a, p x = true) :
    (a ++ b).takeWhile p = a ++ b.takeWhile p := by
  induction a with
  | nil => simp
  | cons x xs ih =>
    have hx : p x = true := ha x (by simp)
    simp only [List.cons_append, List.takeWhile_cons, hx, if_true]
    rw [ih (fun y m => ha y (List.mem_cons_of_mem _ m))]

theorem dropWhile_append_sat (p : Char → Bool) (a b : List Char)
    (ha : ∀ x ∈ a, p x = true) :
    (a ++ b).dropWhile p = b.dropWhile p := by
  induction a with
  | nil => simp
  | cons x xs ih =>
    have hx : p x = true := ha x (by simp)
    simp only [List.cons_append, List.dropWhile_cons, hx, if_true]
    exact ih (fun y m => ha y (List.mem_cons_of_mem _ m))

theorem takeWhile_cons_false (p : Char → Bool) (x : Char) (t : List Char)
    (h : p x = false) : (x :: t).takeWhile p = [] := by
  simp [List.takeWhile_cons, h]

theorem dropWhile_cons_false (p : Char → Bool) (x : Char) (t : List Char)
    (h : p x = false) : (x :: t).dropWhile p = x :: t := by
  simp [List.dropWhile_cons, h]

theorem sxxeyyHere_sound (l : Str) (s e len : Nat)
    (h : sxxeyyHere l = some (s, e, len)) : SxxEyyMatchAt l 0 s e := by
  cases l with
  | nil => simp [sxxeyyHere] at h
  | cons c rest =>
    simp only [sxxeyyHere] at h
    by_cases hc : ciEq c 's' = true
    · rw [if_pos hc] at h
      by_cases hd1 : 1 ≤ (rest.takeWhile Char.isDigit).length ∧
          (rest.takeWhile Char.isDigit).length ≤ 2
      · rw [if_pos hd1] at h
        rcases hr2 : (rest.dropWhile Char.isDigit).dropWhile pySpace with _ | ⟨e2, r3⟩
        · rw [hr2] at h
          simp [sxxeyyTail] at h
        · rw [hr2] at h
          simp only [sxxeyyTail] at h
          by_cases he : ciEq e2 'e' = true
          · rw [if_pos he] at h
            by_cases hd2 : 1 ≤ (r3.takeWhile Char.isDigit).length
            · rw [if_pos hd2, Option.some_inj, Prod.mk.injEq, Prod.mk.injEq] at h
              obtain ⟨hs, he2, _⟩ := h
              refine ⟨[], rest.takeWhile Char.isDigit,
                (rest.dropWhile Char.isDigit).takeWhile pySpace,
                (r3.takeWhile Char.isDigit).take 3,
                (r3.takeWhile Char.isDigit).drop 3 ++ r3.dropWhile Char.isDigit,
                c, e2, ?_, rfl, ciEq_s_elim c hc, ?_, hd1.2, ?_, ?_,
                ciEq_e_elim e2 he, ?_, ?_, ?_, hs.symm, he2.symm⟩
              · simp only [List.nil_append, List.cons.injEq, true_and]
                have h1 : (r3.takeWhile Char.isDigit).take 3 ++
                    ((r3.takeWhile Char.isDigit).drop 3 ++
                      r3.dropWhile Char.isDigit) = r3 := by
                  rw [← List.append_assoc, List.take_append_drop,
                    List.takeWhile_append_dropWhile]
                rw [h1,
                  show e2 :: r3 =
                    (rest.dropWhile Char.isDigit).dropWhile pySpace from hr2.symm,
                  List.append_assoc, List.takeWhile_append_dropWhile,
                  List.takeWhile_append_dropWhile]
              · intro hne
                rw [hne] at hd1
                simp at hd1
              · intro x hx
                exact List.mem_takeWhile_imp hx
              · intro x hx
                exact List.mem_takeWhile_imp hx
              · intro hne
                have hlen : ((r3.takeWhile Char.isDigit).take 3).length = 0 := by
                  rw [hne]; rfl
                rw [List.length_take] at hlen
                omega
              · rw [List.length_take]
                omega
              · intro x hx
                exact List.mem_takeWhile_imp (List.take_subset _ _ hx)
            · rw [if_neg hd2] at h
              exact absurd h (by simp)
          · rw [if_neg he] at h
            exact absurd h (by simp)
      · rw [if_neg hd1] at h
        exact absurd h (by simp)
    · rw [if_neg hc] at h
      exact absurd h (by simp)

theorem sxxeyyHere_complete (l : Str) (s e : Nat) (h : SxxEyyMatchAt l 0 s e) :
    ∃ s2 e2 len, sxxeyyHere l = some (s2, e2, len) := by
  obtain ⟨pre, d1, sp, d2, post, c1, c2, heq, hpre, hc1, hd1ne, hd1len, hd1dig,
    hsp, hc2, hd2ne, hd2len, hd2dig, hs, he⟩ := h
  have hpre0 : pre = [] := List.length_eq_zero.mp hpre
  subst hpre0
  simp only [List.nil_append] at heq
  subst heq
  have hcs : ciEq c1 's' = true := by
    rcases hc1 with h | h <;> subst h <;> decide
  have hce : ciEq c2 'e' = true := by
    rcases hc2 with h | h <;> subst h <;> decide
  have hc2nd : c2.isDigit = false := by
    rcases hc2 with h | h <;> subst h <;> decide
  have hc2ns : pySpace c2 = false := by
    rcases hc2 with h | h <;> subst h <;> decide
  have hheadnd : ∀ t : Str, (sp ++ c2 :: t).takeWhile Char.isDigit = [] := by
    intro t
    cases sp with
    | nil => exact takeWhile_cons_false _ _ _ hc2nd
    | cons s0 sp2 =>
      simp only [List.cons_append]
      exact takeWhile_cons_false _ _ _ (pySpace_not_digit s0 (hsp s0 (by simp)))
  have hheadnd2 : ∀ t : Str,
      (sp ++ c2 :: t).dropWhile Char.isDigit = sp ++ c2 :: t := by
    intro t
    cases sp with
    | nil => exact dropWhile_cons_false _ _ _ hc2nd
    | cons s0 sp2 =>
      simp only [List.cons_append]
      exact dropWhile_cons_false _ _ _ (pySpace_not_digit s0 (hsp s0 (by simp)))
  have htk1 : (d1 ++ sp ++ c2 :: (d2 ++ post)).takeWhile Char.isDigit = d1 := by
    rw [List.append_assoc, takeWhile_append_sat Char.isDigit d1 _ hd1dig,
      hheadnd, List.append_nil]
  have hdr1 : (d1 ++ sp ++ c2 :: (d2 ++ post)).dropWhile Char.isDigit =
      sp ++ c2 :: (d2 ++ post) := by
    rw [List.append_assoc, dropWhile_append_sat Char.isDigit d1 _ hd1dig, hheadnd2]
  have htk2 : (sp ++ c2 :: (d2 ++ post)).takeWhile pySpace = sp := by
    rw [takeWhile_append_sat pySpace sp _ hsp,
      takeWhile_cons_false _ _ _ hc2ns, List.append_nil]
  have hdr2 : (sp ++ c2 :: (d2 ++ post)).dropWhile pySpace = c2 :: (d2 ++ post) := by
    rw [dropWhile_append_sat pySpace sp _ hsp]
    exact dropWhile_cons_false _ _ _ hc2ns
  have htk3 : 1 ≤ ((d2 ++ post).takeWhile Char.isDigit).length := by
    cases d2 with
    | nil => exact absurd rfl hd2ne
    | cons x xs =>
      have hx : x.isDigit = true := hd2dig x (by simp)
      simp only [List.cons_append, List.takeWhile_cons, hx, if_true]
      simp
  have hlen1 : 1 ≤ d1.length ∧ d1.length ≤ 2 := by
    refine ⟨?_, hd1len⟩
    cases d1 with
    | nil => exact absurd rfl hd1ne
    | cons _ _ => simp
  refine ⟨digitsVal d1, digitsVal (((d2 ++ post).takeWhile Char.isDigit).take 3),
    1 + d1.length + sp.length +
      1 + min ((d2 ++ post).takeWhile Char.isDigit).length 3, ?_⟩
  simp only [sxxeyyHere]
  rw [if_pos hcs, htk1, if_pos hlen1, hdr1, htk2, hdr2]
  simp only [sxxeyyTail]
  rw [if_pos hce, if_pos htk3]

/-- Leftmost-search specification of `findSxxEyyAux`. -/
theorem findSxxEyyAux_spec (l : Str) : ∀ (i : Nat),
    (match findSxxEyyAux l i with
     | some (j, s, e, k) => i ≤ j ∧
         sxxeyyHere (l.drop (j - i)) = some (s, e, k - j) ∧
         ∀ m, m < j - i → sxxeyyHere (l.drop m) = none
     | none => ∀ m, sxxeyyHere (l.drop m) = none) := by
  induction l with
  | nil =>
    intro i
    simp only [findSxxEyyAux]
    intro m
    simp [sxxeyyHere]
  | cons c rest ih =>
    intro i
    unfold findSxxEyyAux
    rcases hh : sxxeyyHere (c :: rest) with _ | ⟨⟨s, e, len⟩⟩
    · simp only [hh]
      have ih2 := ih (i + 1)
      rcases haux : findSxxEyyAux rest (i + 1) with _ | ⟨⟨j, s2, e2, k⟩⟩
      · rw [haux] at ih2
        intro m
        cases m with
        | zero => exact hh
        | succ m2 =>
          rw [show (c :: rest).drop (m2 + 1) = rest.drop m2 from rfl]
          exact ih2 m2
      · rw [haux] at ih2
        obtain ⟨hij, hhere, hlm⟩ := ih2
        refine ⟨by omega, ?_, ?_⟩
        · rw [show j - i = (j - (i + 1)) + 1 from by omega]
          rw [show (c :: rest).drop ((j - (i + 1)) + 1) = rest.drop (j - (i + 1)) from rfl]
          exact hhere
        · intro m hm
          cases m with
          | zero => exact hh
          | succ m2 =>
            rw [show (c :: rest).drop (m2 + 1) = rest.drop m2 from rfl]
            exact hlm m2 (by omega)
    · simp only [hh]
      refine ⟨le_rfl, ?_, ?_⟩
      · rw [show i - i = 0 from by omega]
        rw [show i + len - i = len from by omega]
        exact hh
      · intro m hm
        omega

theorem sxxeyy_matchAt_append (a b : Str) (s e : Nat)
    (h : SxxEyyMatchAt b 0 s e) : SxxEyyMatchAt (a ++ b) a.length s e := by
  obtain ⟨pre, d1, sp, d2, post, c1, c2, heq, hpre, rest⟩ := h
  have hpre0 : pre = [] := List.length_eq_zero.mp hpre
  subst hpre0
  simp only [List.nil_append] at heq
  exact ⟨a, d1, sp, d2, post, c1, c2, by rw [heq], rfl, rest⟩

theorem sxxeyy_matchAt_drop (l : Str) (i s e : Nat)
    (h : SxxEyyMatchAt l i s e) :
    ∃ s2 e2 len, sxxeyyHere (l.drop i) = some (s2, e2, len) := by
  obtain ⟨pre, d1, sp, d2, post, c1, c2, heq, hpre, rest⟩ := h
  apply sxxeyyHere_complete _ s e
  have hdrop : l.drop i = c1 :: (d1 ++ sp ++ c2 :: (d2 ++ post)) := by
    rw [heq, ← hpre, List.drop_left]
  rw [hdrop]
  exact ⟨[], d1, sp, d2, post, c1, c2, rfl, rfl, rest⟩

theorem sxxeyy_here_matchAt (l : Str) (i s e len : Nat)
    (h : sxxeyyHere (l.drop i) = some (s, e, len)) : SxxEyyMatchAt l i s e := by
  have hm := sxxeyyHere_sound _ _ _ _ h
  have hi : i ≤ l.length := by
    by_contra hgt
    rw [List.drop_eq_nil_of_le (by omega)] at h
    simp [sxxeyyHere] at h
  have := sxxeyy_matchAt_append (l.take i) (l.drop i) s e hm
  rw [List.take_append_drop] at this
  rwa [List.length_take, min_eq_left hi] at this

/- ---------------------------------------------------------------------------
Declarative reading of the `NxM` marker and its relation to the scanner.
--------------------------------------------------------------------------- -/

theorem digit_wordChar (c : Char) (h : c.isDigit = true) : wordChar c = true := by
  have ha : c.isAlphanum = true := by
    simp [Char.isAlphanum, h]
  simp [wordChar, ha]

theorem nonword_not_digit (c : Char) (h : wordChar c = false) :
    c.isDigit = false := by
  cases hd : c.isDigit with
  | false => rfl
  | true =>
    rw [digit_wordChar c hd] at h
    exact Bool.noConfusion h

theorem boundaryNW_head (l : Str) (c : Char) (hb : boundaryNW l = true)
    (hc : l.head? = some c) : wordChar c = false := by
  cases l with
  | nil => simp at hc
  | cons a t =>
    simp only [List.head?_cons, Option.some_inj] at hc
    subst hc
    simp only [boundaryNW, Bool.not_eq_true'] at hb
    exact hb

theorem pwAt_cons (c : Char) (rest : Str) (m : Nat) (w : Bool) :
    pwAt (c :: rest) (m + 1) w = pwAt rest m (wordChar c) := by
  cases m with
  | zero => simp [pwAt]
  | succ m2 =>
    simp only [pwAt, if_neg (Nat.succ_ne_zero (m2 + 1)), if_neg (Nat.succ_ne_zero m2),
      Nat.add_sub_cancel]
    rfl

theorem oneX02Here_val (l : Str) (s e : Nat) (h : OneX02MatchAt l 0 s e) :
    ∃ len, oneX02Here false l = some (s, e, len) := by
  obtain ⟨pre, d1, sp1, sp2, d2, post, x, heq, hpre, _hb, hd1ne, hd1len, hd1dig,
    hsp1, hx, hsp2, hd2ne, hd2len, hd2dig, hpost, hs, he⟩ := h
  have hpre0 : pre = [] := List.length_eq_zero.mp hpre
  subst hpre0
  simp only [List.nil_append] at heq
  subst heq
  subst hs
  subst he
  have hxnd : x.isDigit = false := by
    rcases hx with h | h <;> subst h <;> decide
  have hxns : pySpace x = false := by
    rcases hx with h | h <;> subst h <;> decide
  have hxeq : (x == 'x' || x == 'X') = true := by
    rcases hx with h | h <;> subst h <;> decide
  have hheadnd :
      (sp1 ++ x :: (sp2 ++ (d2 ++ post))).takeWhile Char.isDigit = [] := by
    cases sp1 with
    | nil => exact takeWhile_cons_false _ _ _ hxnd
    | cons s0 t =>
      simp only [List.cons_append]
      exact takeWhile_cons_false _ _ _ (pySpace_not_digit s0 (hsp1 s0 (by simp)))
  have hheadnd2 :
      (sp1 ++ x :: (sp2 ++ (d2 ++ post))).dropWhile Char.isDigit =
        sp1 ++ x :: (sp2 ++ (d2 ++ post)) := by
    cases sp1 with
    | nil => exact dropWhile_cons_false _ _ _ hxnd
    | cons s0 t =>
      simp only [List.cons_append]
      exact dropWhile_cons_false _ _ _ (pySpace_not_digit s0 (hsp1 s0 (by simp)))
  have htk1 :
      (d1 ++ (sp1 ++ x :: (sp2 ++ (d2 ++ post)))).takeWhile Char.isDigit = d1 := by
    rw [takeWhile_append_sat Char.isDigit d1 _ hd1dig, hheadnd, List.append_nil]
  have hdr1 :
      (d1 ++ (sp1 ++ x :: (sp2 ++ (d2 ++ post)))).dropWhile Char.isDigit =
        sp1 ++ x :: (sp2 ++ (d2 ++ post)) := by
    rw [dropWhile_append_sat Char.isDigit d1 _ hd1dig, hheadnd2]
  have htk2 : (sp1 ++ x :: (sp2 ++ (d2 ++ post))).takeWhile pySpace = sp1 := by
    rw [takeWhile_append_sat pySpace sp1 _ hsp1,
      takeWhile_cons_false _ _ _ hxns, List.append_nil]
  have hdr2 : (sp1 ++ x :: (sp2 ++ (d2 ++ post))).dropWhile pySpace =
      x :: (sp2 ++ (d2 ++ post)) := by
    rw [dropWhile_append_sat pySpace sp1 _ hsp1]
    exact dropWhile_cons_false _ _ _ hxns
  have hd2tw : (d2 ++ post).takeWhile pySpace = [] := by
    cases d2 with
    | nil => exact absurd rfl hd2ne
    | cons y ys =>
      simp only [List.cons_append]
      exact takeWhile_cons_false _ _ _ (digit_not_pySpace y (hd2dig y (by simp)))
  have hd2dw : (d2 ++ post).dropWhile pySpace = d2 ++ post := by
    cases d2 with
    | nil => exact absurd rfl hd2ne
    | cons y ys =>
      simp only [List.cons_append]
      exact dropWhile_cons_false _ _ _ (digit_not_pySpace y (hd2dig y (by simp)))
  have htk3 : (sp2 ++ (d2 ++ post)).takeWhile pySpace = sp2 := by
    rw [takeWhile_append_sat pySpace sp2 _ hsp2, hd2tw, List.append_nil]
  have hdr3 : (sp2 ++ (d2 ++ post)).dropWhile pySpace = d2 ++ post := by
    rw [dropWhile_append_sat pySpace sp2 _ hsp2, hd2dw]
  have hposttk : post.takeWhile Char.isDigit = [] := by
    cases post with
    | nil => rfl
    | cons c t =>
      exact takeWhile_cons_false _ _ _ (nonword_not_digit c (hpost c rfl))
  have hpostdw : post.dropWhile Char.isDigit = post := by
    cases post with
    | nil => rfl
    | cons c t =>
      exact dropWhile_cons_false _ _ _ (nonword_not_digit c (hpost c rfl))
  have htk4 : (d2 ++ post).takeWhile Char.isDigit = d2 := by
    rw [takeWhile_append_sat Char.isDigit d2 _ hd2dig, hposttk, List.append_nil]
  have hdr4 : (d2 ++ post).dropWhile Char.isDigit = post := by
    rw [dropWhile_append_sat Char.isDigit d2 _ hd2dig, hpostdw]
  have hbnd : boundaryNW post = true := by
    cases post with
    | nil => rfl
    | cons c t =>
      simp only [boundaryNW, Bool.not_eq_true']
      exact hpost c rfl
  have hd2len1 : 1 ≤ d2.length := by
    cases d2 with
    | nil => exact absurd rfl hd2ne
    | cons _ _ => simp
  have hlen1 : 1 ≤ d1.length ∧ d1.length ≤ 2 := by
    refine ⟨?_, hd1len⟩
    cases d1 with
    | nil => exact absurd rfl hd1ne
    | cons _ _ => simp
  refine ⟨d1.length + sp1.length + 1 + sp2.length + d2.length, ?_⟩
  simp only [oneX02Here]
  rw [if_neg Bool.false_ne_true, htk1, if_pos hlen1, hdr1, htk2, hdr2]
  simp only [oneX02Tail]
  rw [if_pos hxeq, hdr3, htk3, htk4, hdr4, if_pos ⟨hd2len1, hd2len, hbnd⟩]

theorem oneX02Here_sound (w : Bool) (l : Str) (s e len : Nat)
    (h : oneX02Here w l = some (s, e, len)) :
    w = false ∧ OneX02MatchAt l 0 s e := by
  cases w with
  | true => simp [oneX02Here] at h
  | false =>
    refine ⟨rfl, ?_⟩
    simp only [oneX02Here] at h
    rw [if_neg Bool.false_ne_true] at h
    by_cases hd1 : 1 ≤ (l.takeWhile Char.isDigit).length ∧
        (l.takeWhile Char.isDigit).length ≤ 2
    · rw [if_pos hd1] at h
      rcases hr2 : (l.dropWhile Char.isDigit).dropWhile pySpace with _ | ⟨x, r3⟩
      · rw [hr2] at h
        simp [oneX02Tail] at h
      · rw [hr2] at h
        simp only [oneX02Tail] at h
        by_cases hx : (x == 'x' || x == 'X') = true
        · rw [if_pos hx] at h
          by_cases hc3 : 1 ≤ ((r3.dropWhile pySpace).takeWhile Char.isDigit).length ∧
              ((r3.dropWhile pySpace).takeWhile Char.isDigit).length ≤ 3 ∧
              boundaryNW ((r3.dropWhile pySpace).dropWhile Char.isDigit) = true
          · rw [if_pos hc3, Option.some_inj, Prod.mk.injEq, Prod.mk.injEq] at h
            obtain ⟨hs, he, _⟩ := h
            refine ⟨[], l.takeWhile Char.isDigit,
              (l.dropWhile Char.isDigit).takeWhile pySpace,
              r3.takeWhile pySpace,
              (r3.dropWhile pySpace).takeWhile Char.isDigit,
              (r3.dropWhile pySpace).dropWhile Char.isDigit,
              x, ?_, rfl, ?_, ?_, hd1.2, ?_, ?_, ?_, ?_, ?_, hc3.2.1, ?_, ?_,
              hs.symm, he.symm⟩
            · simp only [List.nil_append]
              rw [List.takeWhile_append_dropWhile, List.takeWhile_append_dropWhile,
                show x :: r3 = (l.dropWhile Char.isDigit).dropWhile pySpace
                  from hr2.symm,
                List.takeWhile_append_dropWhile, List.takeWhile_append_dropWhile]
            · intro c hc
              exact absurd hc (by simp)
            · intro h0
              have h1 := hd1.1
              rw [h0] at h1
              simp at h1
            · intro c hc
              exact List.mem_takeWhile_imp hc
            · intro c hc
              exact List.mem_takeWhile_imp hc
            · simp only [Bool.or_eq_true, beq_iff_eq] at hx
              exact hx
            · intro c hc
              exact List.mem_takeWhile_imp hc
            · intro h0
              have h1 := hc3.1
              rw [h0] at h1
              simp at h1
            · intro c hc
              exact List.mem_takeWhile_imp hc
            · intro c hc
              exact boundaryNW_head _ c hc3.2.2 hc
          · rw [if_neg hc3] at h
            exact absurd h (by simp)
        · rw [if_neg hx] at h
          exact absurd h (by simp)
    · rw [if_neg hd1] at h
      exact absurd h (by simp)

theorem oneX02_matchAt_drop (l : Str) (i s e : Nat) (h : OneX02MatchAt l i s e) :
    ∃ len, oneX02Here (pwAt l i false) (l.drop i) = some (s, e, len) := by
  obtain ⟨pre, d1, sp1, sp2, d2, post, x, heq, hpre, hb, rest⟩ := h
  have hdrop : l.drop i = d1 ++ (sp1 ++ (x :: (sp2 ++ (d2 ++ post)))) := by
    rw [heq, ← hpre, List.drop_left]
  have hpw : pwAt l i false = false := by
    cases i with
    | zero => simp [pwAt]
    | succ m =>
      have hlen : pre.length = m + 1 := hpre
      have hm : m < pre.length := by omega
      have h1 : pre.getLast? = some pre[m] := by
        rw [List.getLast?_eq_getElem? pre, hlen, Nat.add_sub_cancel]
        exact List.getElem?_eq_getElem hm
      have hw := hb _ h1
      simp only [pwAt, if_neg (Nat.succ_ne_zero m), Nat.add_sub_cancel]
      have h2 : l.getD m ' ' = pre[m] := by
        rw [heq, List.getD_eq_getElem?_getD, List.getElem?_append_left hm,
          List.getElem?_eq_getElem hm]
        rfl
      rw [h2]
      exact hw
  rw [hpw, hdrop]
  exact oneX02Here_val _ s e
    ⟨[], d1, sp1, sp2, d2, post, x, rfl, rfl,
      (fun c hc => absurd hc (by simp)), rest⟩

theorem oneX02_here_matchAt (l : Str) (j s e len : Nat)
    (h : oneX02Here (pwAt l j false) (l.drop j) = some (s, e, len)) :
    OneX02MatchAt l j s e := by
  obtain ⟨hpw, hm0⟩ := oneX02Here_sound _ _ _ _ _ h
  obtain ⟨pre, d1, sp1, sp2, d2, post, x, heq, hpre, _hb0, hd1ne, rest⟩ := hm0
  have hpre0 : pre = [] := List.length_eq_zero.mp hpre
  subst hpre0
  simp only [List.nil_append] at heq
  have hjlen : j < l.length := by
    by_contra hgt
    rw [List.drop_eq_nil_of_le (by omega)] at heq
    cases d1 with
    | nil => exact hd1ne rfl
    | cons a t => simp at heq
  refine ⟨l.take j, d1, sp1, sp2, d2, post, x, ?_, ?_, ?_, hd1ne, rest⟩
  · rw [← heq, List.take_append_drop]
  · rw [List.length_take]
    omega
  · intro c hc
    cases j with
    | zero => simp at hc
    | succ m =>
      have hmlt : m < l.length := by omega
      have h1 : (l.take (m + 1)).getLast? = some l[m] := by
        rw [List.getLast?_eq_getElem? _, List.length_take, min_eq_left (by omega),
          Nat.add_sub_cancel, List.getElem?_take, if_pos (by omega : m < m + 1),
          List.getElem?_eq_getElem hmlt]
      rw [h1, Option.some_inj] at hc
      subst hc
      rw [pwAt, if_neg (Nat.succ_ne_zero m), Nat.add_sub_cancel,
        List.getD_eq_getElem?_getD, List.getElem?_eq_getElem hmlt] at hpw
      exact hpw

/-- Leftmost-search specification of `find1x02Aux`: the scanner finds the
first position whose one-position matcher (with the correct previous-word
flag) fires. -/
theorem find1x02Aux_spec (l : Str) : ∀ (w : Bool) (i : Nat),
    (match find1x02Aux l w i with
     | some (j, s, e, k) => i ≤ j ∧
         oneX02Here (pwAt l (j - i) w) (l.drop (j - i)) = some (s, e, k - j) ∧
         ∀ m, m < j - i → oneX02Here (pwAt l m w) (l.drop m) = none
     | none => ∀ m, oneX02Here (pwAt l m w) (l.drop m) = none) := by
  induction l with
  | nil =>
    intro w i
    simp only [find1x02Aux]
    intro m
    rw [List.drop_nil]
    cases hpw : pwAt ([] : Str) m w with
    | true => rfl
    | false => rfl
  | cons c rest ih =>
    intro w i
    simp only [find1x02Aux]
    rcases hh : oneX02Here w (c :: rest) with _ | ⟨⟨s, e, len⟩⟩
    · simp only [hh]
      have ih2 := ih (wordChar c) (i + 1)
      rcases haux : find1x02Aux rest (wordChar c) (i + 1) with _ | ⟨⟨j, s2, e2, k⟩⟩
      · rw [haux] at ih2
        intro m
        cases m with
        | zero => simpa [pwAt] using hh
        | succ m2 =>
          rw [pwAt_cons, show (c :: rest).drop (m2 + 1) = rest.drop m2 from rfl]
          exact ih2 m2
      · rw [haux] at ih2
        obtain ⟨hij, hhere, hlm⟩ := ih2
        refine ⟨by omega, ?_, ?_⟩
        · rw [show j - i = (j - (i + 1)) + 1 from by omega, pwAt_cons,
            show (c :: rest).drop ((j - (i + 1)) + 1) = rest.drop (j - (i + 1))
              from rfl]
          exact hhere
        · intro m hm
          cases m with
          | zero => simpa [pwAt] using hh
          | succ m2 =>
            rw [pwAt_cons, show (c :: rest).drop (m2 + 1) = rest.drop m2 from rfl]
            exact hlm m2 (by omega)
    · simp only [hh]
      refine ⟨le_rfl, ?_, ?_⟩
      · rw [show i - i = 0 from by omega, show i + len - i = len from by omega]
        simpa [pwAt] using hh
      · intro m hm
        omega

theorem sxxeyyGreedy_matchAt (l : Str) (i s e : Nat) (h : SxxEyyGreedyAt l i s e) :
    SxxEyyMatchAt l i s e := by
  obtain ⟨pre, d1, sp, d2, post, c1, c2, heq, hpre, hc1, hd1ne, hd1len, hd1dig,
    hsp, hc2, hd2ne, hd2len, hd2dig, _hmax, hs, he⟩ := h
  exact ⟨pre, d1, sp, d2, post, c1, c2, heq, hpre, hc1, hd1ne, hd1len, hd1dig,
    hsp, hc2, hd2ne, hd2len, hd2dig, hs, he⟩

theorem sxxeyyHere_val (l : Str) (s e : Nat) (h : SxxEyyGreedyAt l 0 s e) :
    ∃ len, sxxeyyHere l = some (s, e, len) := by
  obtain ⟨pre, d1, sp, d2, post, c1, c2, heq, hpre, hc1, hd1ne, hd1len, hd1dig,
    hsp, hc2, hd2ne, hd2len, hd2dig, hmax, hs, he⟩ := h
  have hpre0 : pre = [] := List.length_eq_zero.mp hpre
  subst hpre0
  simp only [List.nil_append] at heq
  subst heq
  subst hs
  subst he
  have hcs : ciEq c1 's' = true := by
    rcases hc1 with h | h <;> subst h <;> decide
  have hce : ciEq c2 'e' = true := by
    rcases hc2 with h | h <;> subst h <;> decide
  have hc2nd : c2.isDigit = false := by
    rcases hc2 with h | h <;> subst h <;> decide
  have hc2ns : pySpace c2 = false := by
    rcases hc2 with h | h <;> subst h <;> decide
  have hheadnd : ∀ t : Str, (sp ++ c2 :: t).takeWhile Char.isDigit = [] := by
    intro t
    cases sp with
    | nil => exact takeWhile_cons_false _ _ _ hc2nd
    | cons s0 sp2 =>
      simp only [List.cons_append]
      exact takeWhile_cons_false _ _ _ (pySpace_not_digit s0 (hsp s0 (by simp)))
  have hheadnd2 : ∀ t : Str,
      (sp ++ c2 :: t).dropWhile Char.isDigit = sp ++ c2 :: t := by
    intro t
    cases sp with
    | nil => exact dropWhile_cons_false _ _ _ hc2nd
    | cons s0 sp2 =>
      simp only [List.cons_append]
      exact dropWhile_cons_false _ _ _ (pySpace_not_digit s0 (hsp s0 (by simp)))
  have htk1 : (d1 ++ sp ++ c2 :: (d2 ++ post)).takeWhile Char.isDigit = d1 := by
    rw [List.append_assoc, takeWhile_append_sat Char.isDigit d1 _ hd1dig,
      hheadnd, List.append_nil]
  have hdr1 : (d1 ++ sp ++ c2 :: (d2 ++ post)).dropWhile Char.isDigit =
      sp ++ c2 :: (d2 ++ post) := by
    rw [List.append_assoc, dropWhile_append_sat Char.isDigit d1 _ hd1dig, hheadnd2]
  have htk2 : (sp ++ c2 :: (d2 ++ post)).takeWhile pySpace = sp := by
    rw [takeWhile_append_sat pySpace sp _ hsp,
      takeWhile_cons_false _ _ _ hc2ns, List.append_nil]
  have hdr2 : (sp ++ c2 :: (d2 ++ post)).dropWhile pySpace = c2 :: (d2 ++ post) := by
    rw [dropWhile_append_sat pySpace sp _ hsp]
    exact dropWhile_cons_false _ _ _ hc2ns
  have htk3 : 1 ≤ ((d2 ++ post).takeWhile Char.isDigit).length := by
    cases d2 with
    | nil => exact absurd rfl hd2ne
    | cons x xs =>
      have hx : x.isDigit = true := hd2dig x (by simp)
      simp only [List.cons_append, List.takeWhile_cons, hx, if_true]
      simp
  have hlen1 : 1 ≤ d1.length ∧ d1.length ≤ 2 := by
    refine ⟨?_, hd1len⟩
    cases d1 with
    | nil => exact absurd rfl hd1ne
    | cons _ _ => simp
  have htkd2 : (d2 ++ post).takeWhile Char.isDigit =
      d2 ++ post.takeWhile Char.isDigit :=
    takeWhile_append_sat _ d2 _ hd2dig
  have htake : ((d2 ++ post).takeWhile Char.isDigit).take 3 = d2 := by
    rcases hmax with h3 | hnd
    · rw [htkd2, ← h3, List.take_left]
    · have hptk : post.takeWhile Char.isDigit = [] := by
        cases post with
        | nil => rfl
        | cons c t => exact takeWhile_cons_false _ _ _ (hnd c rfl)
      rw [htkd2, hptk, List.append_nil]
      exact List.take_of_length_le hd2len
  refine ⟨1 + d1.length + sp.length + 1 +
    min ((d2 ++ post).takeWhile Char.isDigit).length 3, ?_⟩
  simp only [sxxeyyHere]
  rw [if_pos hcs, htk1, if_pos hlen1, hdr1, htk2, hdr2]
  simp only [sxxeyyTail]
  rw [if_pos hce, if_pos htk3, htake]

theorem sxxeyyGreedy_drop (l : Str) (i s e : Nat) (h : SxxEyyGreedyAt l i s e) :
    ∃ len, sxxeyyHere (l.drop i) = some (s, e, len) := by
  obtain ⟨pre, d1, sp, d2, post, c1, c2, heq, hpre, rest⟩ := h
  have hdrop : l.drop i = c1 :: (d1 ++ sp ++ c2 :: (d2 ++ post)) := by
    rw [heq, ← hpre, List.drop_left]
  rw [hdrop]
  exact sxxeyyHere_val _ s e ⟨[], d1, sp, d2, post, c1, c2, rfl, rfl, rest⟩

/- ---------------------------------------------------------------------------
Claim C2.
--------------------------------------------------------------------------- -/

/-- C2 counterexample: the raw filename `[S01E02] show.mkv` contains an
explicit `SxxEyy` marker (season 1, episode 2 at index 1), yet
`parse_episode_from_name` strips the leading bracket tag before matching and
returns no season, no episode and `already_tagged = false`. -/
theorem c2_counterexample :
    SxxEyyMatchAt ("[S01E02] show.mkv".data) 1 1 2 ∧
    parse_episode_from_name ("[S01E02] show.mkv".data) = (none, none, false, []) := by
  constructor
  · exact sxxeyy_here_matchAt _ 1 1 2 6 (by decide)
  · decide

/-- C2 (corrected): `parse_episode_from_name` matches the markers against the
processed stem (basename, extension removed, leading release tags stripped,
half-width and space normalised), not against the raw name.  For every name
whose processed stem has a leftmost greedy `SxxEyy` match with captures
`(s, e)`, the function returns `(some s, some e, already_tagged = true)`;
if the processed stem has no `SxxEyy` match but has a leftmost `NxM` match
with captures `(s, e)`, the function likewise returns
`(some s, some e, true)`. -/
theorem c2_explicit_markers (name : Str) (i s e : Nat)
    (hne : strip name ≠ []) :
    (SxxEyyGreedyAt (processedStem name) i s e →
      (∀ m s3 e3, m < i → ¬ SxxEyyMatchAt (processedStem name) m s3 e3) →
      ∃ suf, parse_episode_from_name name = (some s, some e, true, suf)) ∧
    (OneX02MatchAt (processedStem name) i s e →
      (∀ m s3 e3, m < i → ¬ OneX02MatchAt (processedStem name) m s3 e3) →
      (∀ m s3 e3, ¬ SxxEyyMatchAt (processedStem name) m s3 e3) →
      ∃ suf, parse_episode_from_name name = (some s, some e, true, suf)) := by
  constructor
  · intro hm hleft
    generalize hstem : processedStem name = stem at hm hleft
    obtain ⟨len, hval⟩ := sxxeyyGreedy_drop _ _ _ _ hm
    have hspec := findSxxEyyAux_spec stem 0
    rcases hfind : findSxxEyyAux stem 0 with _ | ⟨⟨j, s2, e2, k⟩⟩
    · rw [hfind] at hspec
      have hall : ∀ m, sxxeyyHere (stem.drop m) = none := hspec
      rw [hall i] at hval
      exact absurd hval (by simp)
    · rw [hfind] at hspec
      obtain ⟨h0j, hhere, hnone⟩ := hspec
      rw [Nat.sub_zero] at hhere
      have hji : j = i := by
        rcases Nat.lt_trichotomy j i with hlt | heq2 | hgt
        · exact absurd (sxxeyy_here_matchAt _ _ _ _ _ hhere) (hleft j s2 e2 hlt)
        · exact heq2
        · rw [hnone i (by omega)] at hval
          exact absurd hval (by simp)
      subst hji
      rw [hval, Option.some_inj, Prod.mk.injEq, Prod.mk.injEq] at hhere
      obtain ⟨hs2, he2, _⟩ := hhere
      have hfind2 : findSxxEyy stem = some (j, s, e, k) := by
        simp only [findSxxEyy]
        rw [hfind, hs2, he2]
      simp only [parse_episode_from_name]
      rw [if_neg hne, hstem]
      simp only [parse_episode_core]
      rw [hfind2]
      exact ⟨_, rfl⟩
  · intro hm hleft hnos
    generalize hstem : processedStem name = stem at hm hleft hnos
    have hfindS : findSxxEyyAux stem 0 = none := by
      rcases hfs : findSxxEyyAux stem 0 with _ | ⟨⟨j, s3, e3, k⟩⟩
      · rfl
      · have hspecS := findSxxEyyAux_spec stem 0
        rw [hfs] at hspecS
        obtain ⟨_, hhere, _⟩ := hspecS
        rw [Nat.sub_zero] at hhere
        exact absurd (sxxeyy_here_matchAt _ _ _ _ _ hhere) (hnos j s3 e3)
    obtain ⟨len, hval⟩ := oneX02_matchAt_drop _ _ _ _ hm
    have hspec := find1x02Aux_spec stem false 0
    rcases hfind : find1x02Aux stem false 0 with _ | ⟨⟨j, s2, e2, k⟩⟩
    · rw [hfind] at hspec
      have hall : ∀ m, oneX02Here (pwAt stem m false)
          (stem.drop m) = none := hspec
      rw [hall i] at hval
      exact absurd hval (by simp)
    · rw [hfind] at hspec
      obtain ⟨h0j, hhere, hnone⟩ := hspec
      rw [Nat.sub_zero] at hhere
      have hji : j = i := by
        rcases Nat.lt_trichotomy j i with hlt | heq2 | hgt
        · exact absurd (oneX02_here_matchAt _ _ _ _ _ hhere) (hleft j s2 e2 hlt)
        · exact heq2
        · rw [hnone i (by omega)] at hval
          exact absurd hval (by simp)
      subst hji
      rw [hval, Option.some_inj, Prod.mk.injEq, Prod.mk.injEq] at hhere
      obtain ⟨hs2, he2, _⟩ := hhere
      have hfindS2 : findSxxEyy stem = none := by
        simp only [findSxxEyy]
        exact hfindS
      have hfind2 : find1x02 stem = some (j, s, e, k) := by
        simp only [find1x02]
        rw [hfind, hs2, he2]
      simp only [parse_episode_from_name]
      rw [if_neg hne, hstem]
      simp only [parse_episode_core]
      rw [hfindS2, hfind2]
      exact ⟨_, rfl⟩

/-- Witness for C2 on the concrete name `S01E02.mkv`: the marker is leftmost
and greedy, and the parser returns season 1, episode 2, tagged. -/
theorem c2_explicit_markers_witness :
    ∃ suf, parse_episode_from_name ("S01E02.mkv".data) =
      (some 1, some 2, true, suf) := by
  refine (c2_explicit_markers ("S01E02.mkv".data) 0 1 2 (by decide)).1 ?_ ?_
  · exact ⟨[], ['0', '1'], [], ['0', '2'], [], 'S', 'E', by decide, rfl,
      by decide, by decide, by decide, by decide, by simp, by decide,
      by decide, by decide, by decide,
      Or.inr (fun x hx => absurd hx (by simp)), by decide, by decide⟩
  · intro m s3 e3 hm
    exact absurd hm (by omega)

/- ---------------------------------------------------------------------------
Claim C3.
--------------------------------------------------------------------------- -/

/-- C3 counterexample: the name `[S1-S3] 05.mkv` matches the season-range
container pattern `\bS\d{1,2}\s*[-~—–]\s*S?\d{1,2}\b`, yet
`parse_episode_from_name` strips the leading bracket tag first and then
interprets the digit run `05` inside the name as episode 5. -/
theorem c3_counterexample :
    seasonRangeS (strip (to_halfwidth ("[S1-S3] 05.mkv".data))) = true ∧
    parse_episode_from_name ("[S1-S3] 05.mkv".data) = (none, some 5, false, []) := by
  constructor
  · decide
  · decide

/-- C3 (corrected): the season-range guard does hold for
`parse_season_from_text`: whenever either range pattern matches the
half-width-normalised, stripped text, the season parser returns `none`.
For `parse_episode_from_name` the guard is applied to the processed stem
(after tag stripping) and only protects the two numeric fallbacks: when the
processed stem matches a range pattern and none of the explicit
`SxxEyy`/`NxM`/`E<nn>`/`第X集` scanners fire, no episode is inferred. -/
theorem c3_season_range (text name : Str)
    (hg : (seasonRangeS (strip (to_halfwidth text)) ||
           seasonRangeCn (strip (to_halfwidth text))) = true)
    (hne : strip name ≠ [])
    (hrange : (seasonRangeCn (processedStem name) ||
               seasonRangeS (processedStem name)) = true)
    (hS : findSxxEyy (processedStem name) = none)
    (h1 : find1x02 (processedStem name) = none)
    (hE : findEpNum (processedStem name) = none)
    (hCn : findCnEp (processedStem name) = none) :
    parse_season_from_text text = none ∧
    parse_episode_from_name name =
      (parse_season_from_text (processedStem name), none, false,
        joinSp (quality_tokens (processedStem name))) := by
  constructor
  · simp only [parse_season_from_text]
    by_cases ht : strip (to_halfwidth text) = []
    · rw [if_pos ht]
    · rw [if_neg ht]
      by_cases hrs : seasonRangeS (strip (to_halfwidth text)) = true
      · rw [if_pos hrs]
      · rw [if_neg hrs]
        have hrc : seasonRangeCn (strip (to_halfwidth text)) = true := by
          rw [Bool.or_eq_true] at hg
          rcases hg with h | h
          · exact absurd h hrs
          · exact h
        rw [if_pos hrc]
  · generalize hstem : processedStem name = stem at hrange hS h1 hE hCn
    simp only [parse_episode_from_name]
    rw [if_neg hne, hstem]
    simp only [parse_episode_core]
    rw [hS, h1, hE, hCn, hrange]
    rfl

/-- Witness for C3 at concrete inputs: the folder text `S1-S3` parses to no
season, and the name `S01-S03 合集.mkv` gets no episode. -/
theorem c3_season_range_witness :
    parse_season_from_text ("S1-S3".data) = none ∧
    parse_episode_from_name ("S01-S03 合集.mkv".data) =
      (parse_season_from_text (processedStem ("S01-S03 合集.mkv".data)), none, false,
        joinSp (quality_tokens (processedStem ("S01-S03 合集.mkv".data)))) :=
  c3_season_range ("S1-S3".data) ("S01-S03 合集.mkv".data) (by decide) (by decide)
    (by decide) (by decide) (by decide) (by decide) (by decide)

/- ---------------------------------------------------------------------------
Claim C1.
--------------------------------------------------------------------------- -/

/-- C1 counterexample: with series `4K Palace`, the first canonical name
carries no resolution tag, but reapplying `build_new_video_name` to that
output re-extracts `4K` from the series portion of the name and appends
` - 2160p`, so the function is not idempotent. -/
theorem c1_counterexample :
    build_new_video_name ("4K Palace".data) 1 2
        (build_new_video_name ("4K Palace".data) 1 2 ("ep.mkv".data) []) [] ≠
      build_new_video_name ("4K Palace".data) 1 2 ("ep.mkv".data) [] := by
  decide

/-- C1 (corrected): `build_new_video_name` is idempotent exactly on the
stable inputs: reapplying it to its own output returns the output unchanged
provided (a) resolution re-extraction from the output (plus the new suffix)
agrees with the original extraction, and (b) the output splits off the same
extension as the original name did. -/
theorem c1_idempotent (series old suf suf2 : Str) (season episode : Nat)
    (h1 : extract_resolution
        (build_new_video_name series season episode old suf ++ [' '] ++ suf2) =
      extract_resolution (old ++ [' '] ++ suf))
    (h2 : (splitext (build_new_video_name series season episode old suf)).2 =
      (splitext old).2) :
    build_new_video_name series season episode
        (build_new_video_name series season episode old suf) suf2 =
      build_new_video_name series season episode old suf := by
  generalize hout : build_new_video_name series season episode old suf = out
    at h1 h2 ⊢
  simp only [build_new_video_name]
  rw [h1, h2, ← hout]
  simp only [build_new_video_name]

/-- Witness for C1 on series `Show`, old name `a.mkv`: both stability side
conditions hold and reapplication is a no-op. -/
theorem c1_idempotent_witness :
    build_new_video_name ("Show".data) 1 2
        (build_new_video_name ("Show".data) 1 2 ("a.mkv".data) []) [] =
      build_new_video_name ("Show".data) 1 2 ("a.mkv".data) [] :=
  c1_idempotent ("Show".data) ("a.mkv".data) [] [] 1 2 (by decide) (by decide)

/-- First-fit behaviour of the conflict-suffix loop. -/
theorem uniqLoop_spec (stem ext : Str) (existing : List Str) :
    ∀ (fuel i : Nat),
      (∃ n, i ≤ n ∧ n < i + fuel ∧
        uniqLoop stem ext existing fuel i = candName stem ext n ∧
        candName stem ext n ∉ existing ∧
        ∀ m, i ≤ m → m < n → candName stem ext m ∈ existing) ∨
      (uniqLoop stem ext existing fuel i = [] ∧
        ∀ m, i ≤ m → m < i + fuel → candName stem ext m ∈ existing) := by
  intro fuel
  induction fuel with
  | zero =>
    intro i
    right
    exact ⟨rfl, fun m h1 h2 => absurd h2 (by omega)⟩
  | succ f ih =>
    intro i
    simp only [uniqLoop]
    by_cases hc : candName stem ext i ∈ existing
    · rw [if_pos hc]
      rcases ih (i + 1) with ⟨n, hn1, hn2, heq, hnm, hall⟩ | ⟨heq, hall⟩
      · left
        refine ⟨n, by omega, by omega, heq, hnm, ?_⟩
        intro m h1 h2
        rcases Nat.eq_or_lt_of_le h1 with h | h
        · rw [← h]; exact hc
        · exact hall m (by omega) h2
      · right
        refine ⟨heq, ?_⟩
        intro m h1 h2
        rcases Nat.eq_or_lt_of_le h1 with h | h
        · rw [← h]; exact hc
        · exact hall m (by omega) (by omega)
    · rw [if_neg hc]
      left
      exact ⟨i, le_rfl, by omega, rfl, hc, fun m h1 h2 => absurd h2 (by omega)⟩

set_option maxRecDepth 8192 in
/-- C4 counterexample: with `ON_CONFLICT=suffix` and an empty sibling list
the function does not return the desired name `a/b` unchanged — it first
sanitises it to `a b`; and when the desired name and all 199 suffixed
candidates collide, it returns `""` even though the policy is `suffix`, not
`skip`. -/
theorem c4_counterexample :
    unique_name_in_parent ("suffix".data) [] ("a/b".data) = ("a b".data) ∧
    ("a b".data : Str) ≠ ("a/b".data) ∧
    unique_name_in_parent ("suffix".data)
      (("a".data) :: (List.range 199).map
        (fun i => candName ("a".data) [] (i + 1))) ("a".data) = [] := by
  refine ⟨by decide, by decide, ?_⟩
  decide

/-- C4 (corrected): with the desired name sanitised first, conflict
resolution returns the sanitised name when it has no same-named sibling;
returns `""` under the skip policy on a collision; never returns a name
equal to an existing sibling; and under the suffix policy on a collision it
returns either the ` (n)`-suffixed candidate for the first available
`n ≤ 199`, or `""` when all 199 candidates collide. -/
theorem c4_unique_name (mode : Str) (existing : List Str) (desired : Str) :
    (safe_filename desired ∉ existing →
      unique_name_in_parent mode existing desired = safe_filename desired) ∧
    (safe_filename desired ∈ existing → toLowerStr (strip mode) = ("skip".data) →
      unique_name_in_parent mode existing desired = []) ∧
    (unique_name_in_parent mode existing desired ≠ [] →
      unique_name_in_parent mode existing desired ∉ existing) ∧
    (safe_filename desired ∈ existing → toLowerStr (strip mode) ≠ ("skip".data) →
      (∃ n, 1 ≤ n ∧ n ≤ 199 ∧
        unique_name_in_parent mode existing desired =
          candName (splitext (safe_filename desired)).1
            (splitext (safe_filename desired)).2 n ∧
        candName (splitext (safe_filename desired)).1
            (splitext (safe_filename desired)).2 n ∉ existing ∧
        ∀ m, 1 ≤ m → m < n →
          candName (splitext (safe_filename desired)).1
            (splitext (safe_filename desired)).2 m ∈ existing) ∨
      (unique_name_in_parent mode existing desired = [] ∧
        ∀ n, 1 ≤ n → n ≤ 199 →
          candName (splitext (safe_filename desired)).1
            (splitext (safe_filename desired)).2 n ∈ existing)) := by
  refine ⟨?_, ?_, ?_, ?_⟩
  · intro hmem
    simp only [unique_name_in_parent]
    rw [if_neg hmem]
  · intro hmem hskip
    simp only [unique_name_in_parent]
    rw [if_pos hmem, if_pos hskip]
  · intro hne
    simp only [unique_name_in_parent] at hne ⊢
    by_cases hmem : safe_filename desired ∈ existing
    · rw [if_pos hmem] at hne ⊢
      by_cases hskip : toLowerStr (strip mode) = ("skip".data)
      · rw [if_pos hskip] at hne
        exact absurd rfl hne
      · rw [if_neg hskip] at hne ⊢
        rcases uniqLoop_spec (splitext (safe_filename desired)).1
            (splitext (safe_filename desired)).2 existing 199 1 with
          ⟨n, _, _, heq, hnm, _⟩ | ⟨heq, _⟩
        · rw [heq]
          exact hnm
        · rw [heq] at hne
          exact absurd rfl hne
    · rw [if_neg hmem] at hne ⊢
      exact hmem
  · intro hmem hskip
    simp only [unique_name_in_parent]
    rw [if_pos hmem, if_neg hskip]
    rcases uniqLoop_spec (splitext (safe_filename desired)).1
        (splitext (safe_filename desired)).2 existing 199 1 with
      ⟨n, hn1, hn2, heq, hnm, hall⟩ | ⟨heq, hall⟩
    · left
      exact ⟨n, hn1, by omega, heq, hnm, fun m h1 h2 => hall m h1 h2⟩
    · right
      exact ⟨heq, fun n h1 h2 => hall n h1 (by omega)⟩

/-- Witness for C4: resolving `b.mkv` against a directory that already
contains it yields a name that is not an existing sibling. -/
theorem c4_unique_name_witness :
    unique_name_in_parent ("suffix".data) [("b.mkv".data)] ("b.mkv".data) ∉
      [("b.mkv".data)] :=
  (c4_unique_name ("suffix".data) [("b.mkv".data)] ("b.mkv".data)).2.2.1
    (by decide)

/-- C5 (code bug): `maybe_rename_path` honours dry-run — it makes no
mutating call, writes no undo record, and predicts the same destination path
as an apply run — but `relocate_subtitles_in_show_root` does not: on the
failing listing it issues a real `client.mkdir` for the missing season
folder even with `dry_run = true` (renamer.py line 2300), then crashes in
the swapped-argument `maybe_move` call (renamer.py line 2305); its behaviour
is identical in dry-run and apply modes. -/
theorem c5_dry_run (mode : Str) (existing : List Str)
    (full_path new_name : Str) :
    ((maybe_rename_path mode existing full_path new_name true).2.1 = [] ∧
     (maybe_rename_path mode existing full_path new_name true).2.2 = [] ∧
     (maybe_rename_path mode existing full_path new_name true).1 =
       (maybe_rename_path mode existing full_path new_name false).1) ∧
    relocate_subtitles_in_show_root listing0 ("/show".data) true =
      ([FsOp.mkdir ("/show/S01".data)], true) ∧
    relocate_subtitles_in_show_root listing0 ("/show".data) true =
      relocate_subtitles_in_show_root listing0 ("/show".data) false := by
  refine ⟨?_, by decide, by decide⟩
  simp only [maybe_rename_path]
  by_cases h1 : (split_path full_path).2 = safe_filename new_name ∨
      (split_path full_path).2 = []
  · rw [if_pos h1, if_pos h1]
    exact ⟨rfl, rfl, rfl⟩
  · rw [if_neg h1, if_neg h1]
    by_cases h2 : unique_name_in_parent mode existing (safe_filename new_name) = []
    · rw [if_pos h2, if_pos h2]
      exact ⟨rfl, rfl, rfl⟩
    · rw [if_neg h2, if_neg h2]
      exact ⟨rfl, rfl, rfl⟩

theorem load_state_append (l e : List StateRec) :
    load_state (l ++ e) = load_state l ++ load_state e := by
  simp [load_state]

theorem runLoop_skip (done : List Str) (outcome : Str → Bool) :
    ∀ (paths : List Str) (p : Str), norm_path p ∈ done →
      p ∉ (runLoop done outcome paths).1 := by
  intro paths
  induction paths with
  | nil =>
    intro p hp
    simp [runLoop]
  | cons q rest ih =>
    intro p hp
    simp only [runLoop]
    by_cases hq : norm_path q ∈ done
    · rw [if_pos hq]
      exact ih p hp
    · rw [if_neg hq]
      show p ∉ q :: (runLoop done outcome rest).1
      intro hmem
      rcases List.mem_cons.mp hmem with h | h
      · subst h
        exact hq hp
      · exact ih p hp h

/-- C8: a series whose normalized path has a `done` record in the resume
ledger is skipped by the processing loop, and — since the ledger only ever
grows by appended records — it is also skipped by any subsequent run over
the same input whose ledger extends the original one. -/
theorem c8_resume_skip (ledger extra : List StateRec) (outcome : Str → Bool)
    (paths : List Str) (p : Str)
    (hdone : norm_path p ∈ load_state ledger) :
    p ∉ (runLoop (load_state ledger) outcome paths).1 ∧
    norm_path p ∈ load_state (ledger ++ extra) ∧
    p ∉ (runLoop (load_state (ledger ++ extra)) outcome paths).1 := by
  have hmono : norm_path p ∈ load_state (ledger ++ extra) := by
    rw [load_state_append]
    exact List.mem_append_left _ hdone
  exact ⟨runLoop_skip _ _ paths p hdone, hmono,
    runLoop_skip _ _ paths p hmono⟩

/-- Witness for C8: a ledger with a `done` record for `/a` makes the loop
skip `/a`. -/
theorem c8_resume_skip_witness :
    ("/a".data) ∉ (runLoop (load_state [⟨("/a".data), ("done".data)⟩])
      (fun _ => true) [("/a".data)]).1 :=
  (c8_resume_skip [⟨("/a".data), ("done".data)⟩] [] (fun _ => true)
    [("/a".data)] ("/a".data) (by decide)).1

theorem starts_append (a x : FsPath) : starts a (a ++ x) = true := by
  simp [starts]

theorem starts_length (a p : FsPath) (h : starts a p = true) :
    a.length ≤ p.length := by
  simp only [starts, decide_eq_true_eq] at h
  have := congrArg List.length h
  rw [List.length_take] at this
  omega

theorem starts_trans (a b p : FsPath) (hab : starts a b = true)
    (hbp : starts b p = true) : starts a p = true := by
  have hl : a.length ≤ b.length := starts_length a b hab
  simp only [starts, decide_eq_true_eq] at hab hbp ⊢
  have h2 : p.take a.length = (p.take b.length).take a.length := by
    rw [List.take_take, min_eq_left hl]
  rw [h2, hbp, hab]

theorem starts_of_starts_starts (a b p : FsPath) (hap : starts a p = true)
    (hbp : starts b p = true) (hl : a.length ≤ b.length) :
    starts a b = true := by
  simp only [starts, decide_eq_true_eq] at hap hbp ⊢
  rw [← hbp, List.take_take, min_eq_left hl, hap]

theorem starts_eq_of_ge (a b : FsPath) (h : starts a b = true)
    (hl : b.length ≤ a.length) : a = b := by
  have h2 := starts_length a b h
  simp only [starts, decide_eq_true_eq] at h
  rw [← h, List.take_of_length_le (by omega)]

theorem starts_decompose (a p : FsPath) (h : starts a p = true) :
    p = a ++ p.drop a.length := by
  simp only [starts, decide_eq_true_eq] at h
  conv_lhs => rw [← List.take_append_drop a.length p, h]

theorem pmRewrite_matched (pairs : List (FsPath × FsPath))
    (hu : ∀ q ∈ pairs, ∀ r ∈ pairs, starts q.1 r.1 = true → q = r)
    (p : FsPath) (q : FsPath × FsPath) (hq : q ∈ pairs)
    (hs : starts q.1 p = true) :
    pmRewrite pairs p = q.2 ++ p.drop q.1.length := by
  rcases hf : pairs.find? (fun r => starts r.1 p) with _ | r
  · rw [List.find?_eq_none] at hf
    exact absurd hs (by simpa using hf q hq)
  · have hr1 : starts r.1 p = true := by simpa using List.find?_some hf
    have hrm : r ∈ pairs := List.mem_of_find?_eq_some hf
    have hrq : r = q := by
      rcases Nat.le_total r.1.length q.1.length with hl | hl
      · exact hu r hrm q hq (starts_of_starts_starts r.1 q.1 p hr1 hs hl)
      · exact (hu q hq r hrm (starts_of_starts_starts q.1 r.1 p hs hr1 hl)).symm
    subst hrq
    simp [pmRewrite, hf]

theorem pmRewrite_unmatched (pairs : List (FsPath × FsPath)) (p : FsPath)
    (h : ∀ q ∈ pairs, starts q.1 p = false) : pmRewrite pairs p = p := by
  have hf : pairs.find? (fun r => starts r.1 p) = none := by
    rw [List.find?_eq_none]
    intro q hq
    simp [h q hq]
  simp [pmRewrite, hf]

theorem applyPm_invert (pairs : List (FsPath × FsPath)) (s t : List FsPath)
    (h : applyPm pairs s = some t) :
    applyPm (pairs.map Prod.swap) t = some s := by
  rw [applyPm] at h
  by_cases hok : pmOk pairs s
  · rw [if_pos hok, Option.some_inj] at h
    subst h
    obtain ⟨hC1, hC2, hC3, hC4, hC5⟩ := hok
    have hC4s : ∀ q ∈ pairs.map Prod.swap, ∀ r ∈ pairs.map Prod.swap,
        starts q.1 r.1 = true → q = r := by
      intro q hq r hr hqr
      obtain ⟨q0, hq0, rfl⟩ := List.mem_map.mp hq
      obtain ⟨r0, hr0, rfl⟩ := List.mem_map.mp hr
      rw [congrArg Prod.swap (hC5 q0 hq0 r0 hr0 hqr)]
    -- no image carries a source prefix
    have hNoSrc : ∀ q ∈ pairs, ∀ p ∈ s, starts q.1 (pmRewrite pairs p) = false := by
      intro q hq p hp
      rcases hf : pairs.find? (fun r => starts r.1 p) with _ | r
      · rw [pmRewrite_unmatched pairs p
          (fun r hr => by
            rw [List.find?_eq_none] at hf
            simpa using hf r hr)]
        rw [List.find?_eq_none] at hf
        simpa using hf q hq
      · have hr1 : starts r.1 p = true := by simpa using List.find?_some hf
        have hrm : r ∈ pairs := List.mem_of_find?_eq_some hf
        rw [pmRewrite_matched pairs hC4 p r hrm hr1]
        cases hqs : starts q.1 (r.2 ++ p.drop r.1.length) with
        | false => rfl
        | true =>
          exfalso
          rcases Nat.le_total q.1.length r.2.length with hl | hl
          · have := starts_of_starts_starts q.1 r.2 _ hqs
              (starts_append r.2 _) hl
            rw [hC3 q hq r hrm] at this
            exact Bool.noConfusion this
          · have hr2q : starts r.2 q.1 = true :=
              starts_of_starts_starts r.2 q.1 _ (starts_append r.2 _) hqs hl
            obtain ⟨p0, hp0, hp0s⟩ := hC1 q hq
            have := starts_trans r.2 q.1 p0 hr2q hp0s
            rw [hC2 r hrm p0 hp0] at this
            exact Bool.noConfusion this
    refine (if_pos ?_).trans (congrArg some ?_)
    · refine ⟨?_, ?_, ?_, hC4s, ?_⟩
      · intro q hq
        obtain ⟨q0, hq0, rfl⟩ := List.mem_map.mp hq
        obtain ⟨p0, hp0, hp0s⟩ := hC1 q0 hq0
        refine ⟨pmRewrite pairs p0, List.mem_map_of_mem _ hp0, ?_⟩
        rw [pmRewrite_matched pairs hC4 p0 q0 hq0 hp0s]
        exact starts_append q0.2 _
      · intro q hq p hp
        obtain ⟨q0, hq0, rfl⟩ := List.mem_map.mp hq
        obtain ⟨p0, hp0, rfl⟩ := List.mem_map.mp hp
        exact hNoSrc q0 hq0 p0 hp0
      · intro q hq r hr
        obtain ⟨q0, hq0, rfl⟩ := List.mem_map.mp hq
        obtain ⟨r0, hr0, rfl⟩ := List.mem_map.mp hr
        show starts q0.2 r0.1 = false
        cases hqr : starts q0.2 r0.1 with
        | false => rfl
        | true =>
          exfalso
          obtain ⟨p0, hp0, hp0s⟩ := hC1 r0 hr0
          have := starts_trans q0.2 r0.1 p0 hqr hp0s
          rw [hC2 q0 hq0 p0 hp0] at this
          exact Bool.noConfusion this
      · intro q hq r hr hqr
        obtain ⟨q0, hq0, rfl⟩ := List.mem_map.mp hq
        obtain ⟨r0, hr0, rfl⟩ := List.mem_map.mp hr
        rw [congrArg Prod.swap (hC4 q0 hq0 r0 hr0 hqr)]
    · rw [List.map_map]
      refine (List.map_congr_left ?_).trans (List.map_id s)
      intro p hp
      simp only [Function.comp_apply, id_eq]
      rcases hf : pairs.find? (fun r => starts r.1 p) with _ | r
      · have hun : ∀ q ∈ pairs, starts q.1 p = false := by
          intro q hq
          rw [List.find?_eq_none] at hf
          simpa using hf q hq
        rw [pmRewrite_unmatched pairs p hun,
          pmRewrite_unmatched (pairs.map Prod.swap) p ?_]
        intro q hq
        obtain ⟨q0, hq0, rfl⟩ := List.mem_map.mp hq
        exact hC2 q0 hq0 p hp
      · have hr1 : starts r.1 p = true := by simpa using List.find?_some hf
        have hrm : r ∈ pairs := List.mem_of_find?_eq_some hf
        rw [pmRewrite_matched pairs hC4 p r hrm hr1,
          pmRewrite_matched (pairs.map Prod.swap) hC4s _ r.swap
            (List.mem_map_of_mem _ hrm) (starts_append r.2 _)]
        show r.1 ++ (r.2 ++ p.drop r.1.length).drop r.2.length = p
        rw [List.drop_left, ← starts_decompose r.1 p hr1]
  · rw [if_neg hok] at h
    exact absurd h (by simp)

theorem opPairs_invert (op : UOp) :
    opPairs (invert op) = (opPairs op).map Prod.swap := by
  cases op with
  | rename parent old new => rfl
  | move src dst names => simp [invert, opPairs, List.map_map, Function.comp_def]

theorem applyOp_invert (op : UOp) (s t : List FsPath)
    (h : applyOp op s = some t) : applyOp (invert op) t = some s := by
  rw [applyOp, opPairs_invert]
  exact applyPm_invert (opPairs op) s t h

theorem applyOps_append (a b : List UOp) (s : List FsPath) :
    applyOps (a ++ b) s =
      match applyOps a s with
      | some t => applyOps b t
      | none => none := by
  induction a generalizing s with
  | nil => simp [applyOps]
  | cons op rest ih =>
    simp only [List.cons_append, applyOps]
    rcases applyOp op s with _ | t
    · rfl
    · exact ih t

/-- C7: replaying the undo ledger in reverse with each record inverted
(rename new→old, move dst→src), as `apply_undo` does, restores the modelled
filesystem to its pre-run state — every renamed or moved item returns to its
original parent directory and name. -/
theorem c7_undo_replay (recs : List UOp) (s0 s1 : List FsPath)
    (h : applyOps recs s0 = some s1) :
    applyOps ((recs.map invert).reverse) s1 = some s0 := by
  induction recs generalizing s0 with
  | nil =>
    simp only [applyOps, Option.some_inj] at h
    subst h
    simp [applyOps]
  | cons op rest ih =>
    simp only [applyOps] at h
    rcases hop : applyOp op s0 with _ | t
    · rw [hop] at h
      exact absurd h (by simp)
    · rw [hop] at h
      have h2 := ih t h
      simp only [List.map_cons, List.reverse_cons]
      rw [applyOps_append, h2]
      simp only [applyOps]
      rw [applyOp_invert op s0 t hop]

/-- Witness for C7: one recorded rename and one recorded move, replayed in
reverse, restore the two items. -/
theorem c7_undo_replay_witness :
    applyOps ((([UOp.rename [("show".data)] ("a.mkv".data) ("b.mkv".data),
        UOp.move [("show".data)] [("show".data), ("S01".data)]
          [("b.mkv".data)]]).map invert).reverse)
      [[("show".data)], [("show".data), ("S01".data), ("b.mkv".data)]] =
      some [[("show".data)], [("show".data), ("a.mkv".data)]] := by
  refine c7_undo_replay _ _ _ ?_
  decide

theorem filter_ge_succ_le (xs : List Nat) (n : Nat) :
    (xs.filter (fun m => decide (n + 1 ≤ m))).length ≤
      (xs.filter (fun m => decide (n ≤ m))).length := by
  induction xs with
  | nil => simp
  | cons x t ih =>
    simp only [List.filter_cons, decide_eq_true_eq]
    by_cases h1 : n + 1 ≤ x
    · rw [if_pos h1, if_pos (by omega)]
      simp only [List.length_cons]
      omega
    · rw [if_neg h1]
      by_cases h0 : n ≤ x
      · rw [if_pos h0]
        simp only [List.length_cons]
        omega
      · rw [if_neg h0]
        exact ih

theorem filter_ge_succ_lt (xs : List Nat) (n : Nat) (hn : n ∈ xs) :
    (xs.filter (fun m => decide (n + 1 ≤ m))).length <
      (xs.filter (fun m => decide (n ≤ m))).length := by
  induction xs with
  | nil => simp at hn
  | cons x t ih =>
    simp only [List.filter_cons, decide_eq_true_eq]
    rcases List.mem_cons.mp hn with he | hm
    · subst he
      rw [if_neg (by omega), if_pos (le_refl n)]
      have := filter_ge_succ_le t n
      simp only [List.length_cons]
      omega
    · by_cases h1 : n + 1 ≤ x
      · rw [if_pos h1, if_pos (by omega)]
        simp only [List.length_cons]
        have := ih hm
        omega
      · rw [if_neg h1]
        by_cases h0 : n ≤ x
        · rw [if_pos h0]
          simp only [List.length_cons]
          have := ih hm
          omega
        · rw [if_neg h0]
          exact ih hm

theorem firstFree_spec : ∀ (fuel : Nat) (used : List Nat) (n : Nat),
    (used.filter (fun m => decide (n ≤ m))).length < fuel →
    firstFree used n fuel ∉ used ∧ n ≤ firstFree used n fuel ∧
      ∀ m, n ≤ m → m < firstFree used n fuel → m ∈ used := by
  intro fuel
  induction fuel with
  | zero =>
    intro used n h
    exact absurd h (by omega)
  | succ f ih =>
    intro used n h
    simp only [firstFree]
    by_cases hn : n ∈ used
    · rw [if_pos hn]
      have hlt := filter_ge_succ_lt used n hn
      obtain ⟨h1, h2, h3⟩ := ih used (n + 1) (by omega)
      refine ⟨h1, by omega, ?_⟩
      intro m hm1 hm2
      rcases Nat.eq_or_lt_of_le hm1 with he | hl
      · rw [← he]
        exact hn
      · exact h3 m hl hm2
    · rw [if_neg hn]
      exact ⟨hn, le_rfl, fun m h1 h2 => absurd h2 (by omega)⟩

theorem assignSeason_spec (season : Nat) :
    ∀ (cands : List Cand) (used : List Nat) (next : Nat),
      (∀ pl ∈ assignSeason season used next cands,
        pl.2.1 = season ∧ next ≤ pl.2.2.1 ∧ pl.2.2.1 ∉ used) ∧
      ((assignSeason season used next cands).map
        (fun pl => pl.2.2.1)).Pairwise (· ≠ ·) ∧
      FirstFit used next ((assignSeason season used next cands).map
        (fun pl => pl.2.2.1)) := by
  intro cands
  induction cands with
  | nil =>
    intro used next
    refine ⟨?_, ?_, ?_⟩
    · intro pl hpl
      simp [assignSeason] at hpl
    · simp [assignSeason]
    · exact trivial
  | cons c rest ih =>
    intro used next
    have hfl : (used.filter (fun m => decide (next ≤ m))).length <
        used.length + 1 := by
      have := List.length_filter_le (fun m => decide (next ≤ m)) used
      omega
    obtain ⟨he1, he2, he3⟩ := firstFree_spec (used.length + 1) used next hfl
    obtain ⟨ihA, ihB, ihC⟩ := ih (firstFree used next (used.length + 1) :: used)
      (firstFree used next (used.length + 1) + 1)
    refine ⟨?_, ?_, ?_⟩
    · intro pl hpl
      simp only [assignSeason] at hpl
      rcases List.mem_cons.mp hpl with h | h
      · subst h
        exact ⟨rfl, he2, he1⟩
      · obtain ⟨h1, h2, h3⟩ := ihA pl h
        refine ⟨h1, by omega, ?_⟩
        intro hmem
        exact h3 (List.mem_cons_of_mem _ hmem)
    · simp only [assignSeason, List.map_cons]
      refine List.Pairwise.cons ?_ ihB
      intro x hx
      obtain ⟨pl, hpl, rfl⟩ := List.mem_map.mp hx
      obtain ⟨_, h2, h3⟩ := ihA pl hpl
      intro he
      exact h3 (by rw [← he]; exact List.mem_cons_self _ _)
    · simp only [assignSeason, List.map_cons]
      exact ⟨he1, he2, he3, ihC⟩

theorem assignSeason_season (season : Nat) :
    ∀ (cands : List Cand) (used : List Nat) (next : Nat),
      ∀ pl ∈ assignSeason season used next cands, pl.2.1 = season := by
  intro cands used next pl hpl
  exact ((assignSeason_spec season cands used next).1 pl hpl).1

theorem foldl_inv {α σ : Type} (P : σ → Prop) (f : σ → α → σ)
    (hf : ∀ s a, P s → P (f s a)) :
    ∀ (l : List α) (s : σ), P s → P (l.foldl f s) := by
  intro l
  induction l with
  | nil => exact fun s hs => hs
  | cons a rest ih =>
    intro s hs
    rw [List.foldl_cons]
    exact ih _ (hf s a hs)

theorem bAdd_keys_nodup {α : Type} (m : List (Nat × List α)) (k : Nat) (v : α)
    (h : (m.map Prod.fst).Nodup) : ((bAdd m k v).map Prod.fst).Nodup := by
  unfold bAdd
  by_cases hc : m.any (fun p => p.1 == k)
  · rw [if_pos hc]
    have hkeys : (m.map (fun p => if p.1 == k then (p.1, p.2 ++ [v]) else p)).map
        Prod.fst = m.map Prod.fst := by
      rw [List.map_map]
      refine List.map_congr_left ?_
      intro p _
      simp only [Function.comp_apply]
      by_cases hp : p.1 == k
      · rw [if_pos hp]
      · rw [if_neg hp]
    rw [hkeys]
    exact h
  · rw [if_neg hc]
    have hk : k ∉ m.map Prod.fst := by
      intro hmem
      obtain ⟨p, hp, he⟩ := List.mem_map.mp hmem
      simp only [List.any_eq_true, not_exists, not_and] at hc
      exact absurd (by simp [he]) (fun h2 => hc p hp h2)
    rw [List.map_append]
    rw [List.nodup_append]
    refine ⟨h, by simp, ?_⟩
    intro a ha hb
    simp only [List.map_cons, List.map_nil, List.mem_singleton] at hb
    subst hb
    exact hk ha

theorem gatherEntry_keys {base dir : Str} {sg : Nat}
    {st : List (Nat × List Cand) × List (Nat × List Nat)} {ent : DirEntry}
    (h : (st.1.map Prod.fst).Nodup) :
    (((gatherEntry base dir sg st ent).1).map Prod.fst).Nodup := by
  unfold gatherEntry
  repeat' split
  all_goals first
    | exact h
    | exact bAdd_keys_nodup _ _ _ h

theorem gather_keys (listing : Str → List DirEntry) (dirs : List Str)
    (hints : List (Str × Nat)) (defaultSeason : Nat) :
    (((gather listing dirs hints defaultSeason).1).map Prod.fst).Nodup := by
  unfold gather
  refine foldl_inv (fun st => ((st.1 : List (Nat × List Cand)).map Prod.fst).Nodup)
    (gatherDir listing hints defaultSeason) ?_ dirs ([], []) (by simp)
  intro st dir hst
  unfold gatherDir
  exact foldl_inv (fun st2 => ((st2.1 : List (Nat × List Cand)).map Prod.fst).Nodup)
    _ (fun s2 a hs => gatherEntry_keys hs) _ st hst

theorem flatMap_filter_assign (u2 : List (Nat × List Nat)) (s : Nat) :
    ∀ (ul : List (Nat × List Cand)), (ul.map Prod.fst).Nodup →
      ∃ cs, ((ul.flatMap (fun b =>
          assignSeason b.1 (bGet u2 b.1) 1 (isort candLe b.2))).filter
          (fun pl => decide (pl.2.1 = s))) = assignSeason s (bGet u2 s) 1 cs := by
  intro ul
  induction ul with
  | nil => exact fun _ => ⟨[], rfl⟩
  | cons b rest ih =>
    intro hnd
    rw [List.map_cons, List.nodup_cons] at hnd
    obtain ⟨hb1, hnd2⟩ := hnd
    rw [List.flatMap_cons, List.filter_append]
    by_cases hb : b.1 = s
    · have hall : (assignSeason b.1 (bGet u2 b.1) 1 (isort candLe b.2)).filter
          (fun pl => decide (pl.2.1 = s)) =
          assignSeason b.1 (bGet u2 b.1) 1 (isort candLe b.2) := by
        rw [List.filter_eq_self]
        intro pl hpl
        rw [assignSeason_season b.1 _ _ _ pl hpl, hb]
        simp
      have hnone : (rest.flatMap (fun b2 =>
          assignSeason b2.1 (bGet u2 b2.1) 1 (isort candLe b2.2))).filter
          (fun pl => decide (pl.2.1 = s)) = [] := by
        rw [List.filter_eq_nil_iff]
        intro pl hpl
        obtain ⟨b2, hb2, hplb⟩ := List.mem_flatMap.mp hpl
        rw [assignSeason_season b2.1 _ _ _ pl hplb]
        simp only [decide_eq_true_eq]
        intro he
        rw [← hb] at he
        rw [← he] at hb1
        exact hb1 (List.mem_map_of_mem Prod.fst hb2)
      refine ⟨isort candLe b.2, ?_⟩
      rw [hall, hnone, List.append_nil, hb]
    · have hnone : (assignSeason b.1 (bGet u2 b.1) 1 (isort candLe b.2)).filter
          (fun pl => decide (pl.2.1 = s)) = [] := by
        rw [List.filter_eq_nil_iff]
        intro pl hpl
        rw [assignSeason_season b.1 _ _ _ pl hpl]
        simp only [decide_eq_true_eq]
        exact hb
      obtain ⟨cs, hcs⟩ := ih hnd2
      refine ⟨cs, ?_⟩
      rw [hnone, List.nil_append, hcs]

/-- C6 counterexample: the name `01.mkv` carries no explicit episode marker
(`already_tagged = false`, the number comes from the leading-number
fallback), yet the planner treats its number 1 as consumed, so the dated
file `20200101.mkv` is assigned episode 2 instead of starting at 1. -/
theorem c6_counterexample :
    parse_episode_from_name ("01.mkv".data) = (none, some 1, false, []) ∧
    infer_variety_and_special_episodes
      (fun p => if p = ("/d".data) then
        [⟨("01.mkv".data), false⟩, ⟨("20200101.mkv".data), false⟩] else [])
      [("/d".data)] [] 1 =
      [((("/d".data), ("20200101.mkv".data)), (1, 2, false))] := by
  exact ⟨by decide, by decide⟩

/-- C6 (corrected): within each target season the planner's assigned episode
numbers are pairwise distinct, avoid every number in that season's used-set,
and are assigned first-fit starting from 1 in candidate order — where the
used-set contains the numbers parsed from any video file bucketed to that
scan-season (whether or not the file's marker was explicit). -/
theorem c6_variety_plan (listing : Str → List DirEntry) (dirs : List Str)
    (hints : List (Str × Nat)) (defaultSeason : Nat) (s : Nat) :
    (((infer_variety_and_special_episodes listing dirs hints defaultSeason).filter
        (fun pl => decide (pl.2.1 = s))).map
        (fun pl => pl.2.2.1)).Pairwise (· ≠ ·) ∧
    (∀ pl ∈ infer_variety_and_special_episodes listing dirs hints defaultSeason,
      pl.2.1 = s →
        pl.2.2.1 ∉ bGet (gather listing dirs hints defaultSeason).2 s) ∧
    FirstFit (bGet (gather listing dirs hints defaultSeason).2 s) 1
      (((infer_variety_and_special_episodes listing dirs hints
          defaultSeason).filter
        (fun pl => decide (pl.2.1 = s))).map (fun pl => pl.2.2.1)) := by
  obtain ⟨cs, hcs⟩ := flatMap_filter_assign
    (gather listing dirs hints defaultSeason).2 s
    (gather listing dirs hints defaultSeason).1
    (gather_keys listing dirs hints defaultSeason)
  have hum : (infer_variety_and_special_episodes listing dirs hints
      defaultSeason).filter (fun pl => decide (pl.2.1 = s)) =
      assignSeason s (bGet (gather listing dirs hints defaultSeason).2 s) 1 cs := by
    simp only [infer_variety_and_special_episodes]
    exact hcs
  refine ⟨?_, ?_, ?_⟩
  · rw [hum]
    exact (assignSeason_spec s cs
      (bGet (gather listing dirs hints defaultSeason).2 s) 1).2.1
  · intro pl hpl hps
    have hmem : pl ∈ assignSeason s
        (bGet (gather listing dirs hints defaultSeason).2 s) 1 cs := by
      rw [← hum]
      exact List.mem_filter.mpr ⟨hpl, by simp [hps]⟩
    exact ((assignSeason_spec s cs
      (bGet (gather listing dirs hints defaultSeason).2 s) 1).1 pl hmem).2.2
  · rw [hum]
    exact (assignSeason_spec s cs
      (bGet (gather listing dirs hints defaultSeason).2 s) 1).2.2

end Renamer

